import Mathlib

/-!
Shallow embedding of `update.py`, a static-site content updater.

Modelling conventions:
* Python strings are Lean `String`s; `pat in s` (substring test) is `hasSubstr`,
  `str.strip()` is `pyStrip`, `str.startswith` is `startsWithStr`.
* File contents are modelled as the list of lines produced by `readlines()`
  (each line keeps its trailing newline); `writelines` stores the list back.
  The filesystem is a partial map from paths to line lists.
* Python exceptions (`ValueError` from `strptime`, `KeyError`, `TypeError`)
  are modelled with `Except PyErr`.
* `subprocess.run` is modelled by an oracle `List String → CmdResult`.
-/

/-- Python `pat in l` on character lists: `p` occurs contiguously in the list. -/
def hasInfixChars (p : List Char) : List Char → Bool
  | [] => p.isEmpty
  | c :: rest => p.isPrefixOf (c :: rest) || hasInfixChars p rest

/-- Python `pat in s`: substring containment. -/
def hasSubstr (s pat : String) : Bool := hasInfixChars pat.toList s.toList

/-- Characters stripped by Python `str.strip()`. -/
def isPySpace (c : Char) : Bool :=
  c = ' ' || c = '\t' || c = '\n' || c = '\r' || c = '\x0b' || c = '\x0c'

/-- Python `str.strip()` on character lists. -/
def stripChars (l : List Char) : List Char :=
  ((l.dropWhile isPySpace).reverse.dropWhile isPySpace).reverse

/-- Python `str.strip()`. -/
def pyStrip (s : String) : String := String.mk (stripChars s.toList)

/-- Python `s.startswith(pre)`. -/
def startsWithStr (s pre : String) : Bool := pre.toList.isPrefixOf s.toList

/-- Numeric value of an ASCII digit character. -/
def digitVal (c : Char) : Nat := c.toNat - 48

/-- Gregorian leap-year rule, as used by Python `datetime`. -/
def isLeapYear (y : Nat) : Bool := y % 4 = 0 && (y % 100 ≠ 0 || y % 400 = 0)

/-- Number of days in a month of a given year (Gregorian, as in `datetime`). -/
def daysInMonth (y m : Nat) : Nat :=
  if m = 2 then (if isLeapYear y then 29 else 28)
  else if m = 4 || m = 6 || m = 9 || m = 11 then 30
  else 31

/-- Decimal digit characters, most significant first; the fuel argument only
bounds the recursion depth (the quotient shrinks every step, so `n + 1` units
of fuel always suffice for the number `n`). -/
def natDigitsAux : Nat → Nat → List Char
  | 0, _ => []
  | fuel + 1, n =>
    if n < 10 then [Char.ofNat (48 + n)]
    else natDigitsAux fuel (n / 10) ++ [Char.ofNat (48 + n % 10)]

/-- Decimal digit characters of a natural number, most significant first:
Python `f"{n}"`. -/
def natDigits (n : Nat) : List Char := natDigitsAux (n + 1) n

/-- Python `f"{n}"` for a nonnegative int. -/
def natToStr (n : Nat) : String := String.mk (natDigits n)

/-- The `MONTHS_TR` table of `update.py` (English names, indexed 1–12). -/
def monthsTr (m : Nat) : String :=
  match m with
  | 1 => "January" | 2 => "February" | 3 => "March" | 4 => "April"
  | 5 => "May" | 6 => "June" | 7 => "July" | 8 => "August"
  | 9 => "September" | 10 => "October" | 11 => "November" | 12 => "December"
  | _ => ""

/-- `datetime.strptime(s, "%Y%m%d")`: on an 8-digit string, the first four
digits are the year, then two for the month, two for the day; fails (Python
`ValueError`) unless the result is a valid calendar date with year ≥ 1. -/
def parseDate8 (s : String) : Option (Nat × Nat × Nat) :=
  match s.toList with
  | [a, b, c, d, e, f, g, k] =>
    if a.isDigit && b.isDigit && c.isDigit && d.isDigit &&
       e.isDigit && f.isDigit && g.isDigit && k.isDigit then
      let y := ((digitVal a * 10 + digitVal b) * 10 + digitVal c) * 10 + digitVal d
      let m := digitVal e * 10 + digitVal f
      let dy := digitVal g * 10 + digitVal k
      if 1 ≤ y && 1 ≤ m && m ≤ 12 && 1 ≤ dy && dy ≤ daysInMonth y m then
        some (y, m, dy)
      else none
    else none
  | _ => none

/-- `format_turkish_date`: parse the code and render
`f"{MONTHS_TR[month]} {day}, {year}"`. `none` models the `ValueError` raised by
`strptime` on a non-date. -/
def formatTurkishDate (s : String) : Option String :=
  match parseDate8 s with
  | none => none
  | some (y, m, d) => some (monthsTr m ++ " " ++ natToStr d ++ ", " ++ natToStr y)

/-- Try to match the regex `href="(\d{8})\.html"` at the head of the list,
returning the captured 8 digits. -/
def tryHrefAt (l : List Char) : Option String :=
  if "href=\"".toList.isPrefixOf l then
    let rest := l.drop 6
    let ds := rest.take 8
    if ds.length = 8 && ds.all Char.isDigit && ".html\"".toList.isPrefixOf (rest.drop 8) then
      some (String.mk ds)
    else none
  else none

/-- `re.search`: scan left to right for the first match of the pattern. -/
def scanHref : List Char → Option String
  | [] => none
  | c :: rest =>
    match tryHrefAt (c :: rest) with
    | some d => some d
    | none => scanHref rest

/-- `parse_li_line`: extract the date embedded in a `<li>` line, if any
(the source also returns the line itself alongside). -/
def parseLiLine (line : String) : Option String := scanHref line.toList

/-- `existing[k] = v` on a Python dict modelled as an association list:
replace in place if the key is present, else append. -/
def upsert (k v : String) : List (String × String) → List (String × String)
  | [] => [(k, v)]
  | (k', v') :: rest => if k' = k then (k', v) :: rest else (k', v') :: upsert k v rest

/-- The `existing` dict built by `add_entry_to_index`: for each block line with
a recognizable date, map that date to the full line (later lines overwrite). -/
def collectEntries : List String → List (String × String) → List (String × String)
  | [], acc => acc
  | l :: ls, acc =>
    match parseLiLine l with
    | some d => collectEntries ls (upsert d l acc)
    | none => collectEntries ls acc

/-- Python `k in existing`. -/
def containsKey (k : String) (l : List (String × String)) : Bool :=
  l.any (fun p => p.1 == k)

/-- Lexicographic `≤` on character lists by code point: Python string
comparison. -/
def charListLe : List Char → List Char → Bool
  | [], _ => true
  | _ :: _, [] => false
  | a :: as, b :: bs =>
    if a.toNat < b.toNat then true
    else if a.toNat = b.toNat then charListLe as bs
    else false

/-- Python `a <= b` on strings. -/
def strLe (a b : String) : Bool := charListLe a.toList b.toList

theorem charListLe_total : ∀ a b : List Char, charListLe a b = true ∨ charListLe b a = true
  | [], _ => Or.inl rfl
  | _ :: _, [] => Or.inr rfl
  | a :: as, b :: bs => by
    rcases Nat.lt_trichotomy a.toNat b.toNat with h | h | h
    · left; simp [charListLe, h]
    · rcases charListLe_total as bs with hr | hr
      · left; simp [charListLe, h, hr]
      · right; simp [charListLe, h.symm, hr]
    · right; simp [charListLe, h]

theorem charListLe_trans : ∀ a b c : List Char,
    charListLe a b = true → charListLe b c = true → charListLe a c = true
  | [], _, _, _, _ => rfl
  | _ :: _, [], _, h, _ => by simp [charListLe] at h
  | _ :: _, _ :: _, [], _, h => by simp [charListLe] at h
  | a :: as, b :: bs, c :: cs, h1, h2 => by
    simp only [charListLe] at h1 h2 ⊢
    split at h1
    · split at h2
      · simp [show a.toNat < c.toNat by omega]
      · split at h2
        · simp [show a.toNat < c.toNat by omega]
        · exact absurd h2 (by simp)
    · split at h1
      · split at h2
        · simp [show a.toNat < c.toNat by omega]
        · split at h2
          · simp only [if_neg (show ¬a.toNat < c.toNat by omega),
              if_pos (show a.toNat = c.toNat by omega)]
            exact charListLe_trans as bs cs h1 h2
          · exact absurd h2 (by simp)
      · exact absurd h1 (by simp)

theorem charListLe_antisymm : ∀ a b : List Char,
    charListLe a b = true → charListLe b a = true → a = b
  | [], [], _, _ => rfl
  | [], _ :: _, _, h => by simp [charListLe] at h
  | _ :: _, [], h, _ => by simp [charListLe] at h
  | a :: as, b :: bs, h1, h2 => by
    simp only [charListLe] at h1 h2
    split at h1
    · split at h2
      · omega
      · split at h2
        · omega
        · exact absurd h2 (by simp)
    · split at h1
      · have hab : a = b := by
          have h3 : a.toNat = b.toNat := by omega
          have h4 := Char.ofNat_toNat a
          rw [h3, Char.ofNat_toNat b] at h4
          exact h4.symm
        split at h2
        · omega
        · split at h2
          · rw [hab, charListLe_antisymm as bs h1 h2]
          · exact absurd h2 (by simp)
      · exact absurd h1 (by simp)

/-- Comparison used to model `sorted(existing.keys(), reverse=True)`:
descending lexicographic order on the date keys. -/
def keyGe (a b : String × String) : Prop := strLe b.1 a.1 = true

instance : DecidableRel keyGe := fun a b => inferInstanceAs (Decidable (strLe b.1 a.1 = true))

instance : IsTotal (String × String) keyGe :=
  ⟨fun a b => (charListLe_total b.1.toList a.1.toList).imp id id⟩

instance : IsTrans (String × String) keyGe :=
  ⟨fun _ _ _ h1 h2 => charListLe_trans _ _ _ h2 h1⟩

/-- First index whose line satisfies the predicate:
`next(i for i, line in enumerate(lines) if ...)`. -/
def firstIdxWith (p : String → Bool) : List String → Option Nat
  | [] => none
  | l :: ls => if p l then some 0 else (firstIdxWith p ls).map (· + 1)

/-- Python slice `l[a:b]` (nonnegative bounds, clamped). -/
def pySlice (l : List String) (a b : Nat) : List String := (l.drop a).take (b - a)

/-- The freshly rendered entry line
`f'    <li><a href="{yyyymmdd}.html">{display_date}</a></li>\n'`. -/
def renderLiLine (code dd : String) : String :=
  "    <li><a href=\"" ++ code ++ ".html\">" ++ dd ++ "</a></li>\n"

/-- Block-rewriting core of `add_entry_to_index` (after the file was read and
the display date rendered): locate the `<ul>`/`</ul>` markers, collect the
dated lines, insert the new entry if absent, sort keys descending and rebuild.
`none` models the `StopIteration` branch (marker absent: nothing is written
and the function returns `False`). Since the keys in `existing` are distinct,
the unique descending ordering of the key–line pairs coincides with
`[existing[d] for d in sorted(existing.keys(), reverse=True)]`. -/
def addEntryCore (lines : List String) (code dd : String) : Option (Bool × List String) :=
  match firstIdxWith (fun l => hasSubstr l "<ul>") lines,
        firstIdxWith (fun l => hasSubstr l "</ul>") lines with
  | some i, some j =>
    let start := i + 1
    let liLines := pySlice lines start j
    let existing := collectEntries liLines []
    let changed := !(containsKey code existing)
    let existing2 :=
      if containsKey code existing then existing
      else existing ++ [(code, renderLiLine code dd)]
    let sortedLi := (List.insertionSort keyGe existing2).map Prod.snd
    some (changed, lines.take start ++ sortedLi ++ lines.drop j)
  | _, _ => none

/-- Filesystem: paths to file contents (contents as `readlines()` line lists). -/
def FS := String → Option (List String)

/-- Write a file. -/
def fsSet (fs : FS) (path : String) (content : List String) : FS :=
  fun q => if q = path then some content else fs q

/-- Python exceptions that can surface from the modelled code. -/
inductive PyErr
  | invalidDate
  | keyError
  | typeError
deriving DecidableEq, Repr

/-- `add_entry_to_index(folder, yyyymmdd)`: missing file and missing markers
are reported and yield `False` without writing; otherwise the rebuilt document
is written back (even when no new key was inserted). -/
def addEntryToIndex (fs : FS) (folder code : String) : Except PyErr (Bool × FS) :=
  let path := folder ++ "/index.html"
  match fs path with
  | none => .ok (false, fs)
  | some lines =>
    match formatTurkishDate code with
    | none => .error .invalidDate
    | some dd =>
      match addEntryCore lines code dd with
      | none => .ok (false, fs)
      | some (changed, out) => .ok (changed, fsSet fs path out)

/-- The `dict_title` mapping of `create_daily_file`. -/
def dictTitle (folder : String) : Option String :=
  if folder = "minisudoku" then some "Mini Sudoku"
  else if folder = "zip" then some "Zip"
  else if folder = "queens" then some "Queens"
  else if folder = "tango" then some "Tango"
  else none

/-- The daily-page template of `create_daily_file`, as its list of lines. -/
def dailyTemplate (folder code title dd : String) : List String :=
  [ "<!DOCTYPE html>\n"
  , "<html lang=\"en\">\n"
  , "<head>\n"
  , "  <meta charset=\"UTF-8\">\n"
  , "  <meta name=\"viewport\" content=\"width=device-width, initial-scale=1.0\" />\n"
  , "  <title>" ++ title ++ " Solution – " ++ dd ++ "</title>\n"
  , "  <link rel=\"stylesheet\" href=\"../style.css\">\n"
  , "</head>\n"
  , "<body>\n"
  , "  <header>\n"
  , "    <div class=\"container\">\n"
  , "      <a href=\"/\" class=\"logo\">LinkedIn <span>Games</span></a>\n"
  , "      <nav>\n"
  , "        <a href=\"/\">Home</a>\n"
  , "        <a href=\"/today/\">Today\x27s Solutions</a>\n"
  , "        <a href=\"/about.html\">About</a>\n"
  , "      </nav>\n"
  , "    </div>\n"
  , "  </header>\n"
  , "\n"
  , "  <main class=\"container\">\n"
  , "    <h1>" ++ title ++ " – " ++ dd ++ "</h1>\n"
  , "\n"
  , "    <img src=\"../images/" ++ folder ++ "_" ++ code ++ ".jpeg\" alt=\"" ++ title ++ " Solution\" style=\"max-width: 60%;\">\n"
  , "\n"
  , "    <footer>\n"
  , "      <hr>\n"
  , "      <a href=\"../today/\" class=\"nav\">← Back to Today\x27s Solutions</a>\n"
  , "    </footer>\n"
  , "  </main>\n"
  , "</body>\n"
  , "</html>\n"
  ]

/-- `create_daily_file(folder, yyyymmdd)`: if the target exists, skip and
return `False` (checked before the date is even rendered); otherwise render
the template and write a new file. -/
def createDailyFile (fs : FS) (folder code : String) : Except PyErr (Bool × FS) :=
  let path := folder ++ "/" ++ code ++ ".html"
  match fs path with
  | some _ => .ok (false, fs)
  | none =>
    match formatTurkishDate code with
    | none => .error .invalidDate
    | some dd =>
      match dictTitle folder with
      | none => .error .keyError
      | some title => .ok (true, fsSet fs path (dailyTemplate folder code title dd))

/-- Replacement line `new_list_item` of `update_root_index`. -/
def newListItem (dd : String) : String :=
  "    <li><a href=\"/today/\">🎯 " ++ dd ++ "</a></li>\n"

/-- Replacement line `new_title` of `update_root_index`. -/
def newTitleLine : String :=
  "  <title>LinkedIn Games Solutions – Mini Sudoku, Zip, Queens & Tango</title>\n"

/-- Replacement line `new_og_title` of `update_root_index`. -/
def newOgTitleLine : String :=
  "  <meta property=\"og:title\" content=\"LinkedIn Games Solutions\">\n"

/-- Per-line treatment in `update_root_index`: the patched line, and whether it
was altered. -/
def rootPatchLine (dd line : String) : String × Bool :=
  if hasSubstr line "<a href=\"/today/\">" then
    (if newListItem dd ≠ line then (newListItem dd, true) else (line, false))
  else if startsWithStr (pyStrip line) "<title>" then
    (if pyStrip newTitleLine ≠ pyStrip line then (newTitleLine, true) else (line, false))
  else if hasSubstr line "property=\"og:title\"" then
    (if pyStrip newOgTitleLine ≠ pyStrip line then (newOgTitleLine, true) else (line, false))
  else (line, false)

/-- `update_root_index(yyyymmdd)`. -/
def updateRootIndex (fs : FS) (code : String) : Except PyErr (Bool × FS) :=
  match fs "index.html" with
  | none => .ok (false, fs)
  | some lines =>
    match formatTurkishDate code with
    | none => .error .invalidDate
    | some dd =>
      let patched := lines.map (rootPatchLine dd)
      if patched.any Prod.snd then
        .ok (true, fsSet fs "index.html" (patched.map Prod.fst))
      else .ok (false, fs)

/-- The game-card opening marker of `update_today_index`. -/
def cardMarker : String := "<div class=\"game-card\">"

/-- `'<a href=' in lines[j] and '../' in lines[j]`. -/
def isLinkLine (s : String) : Bool := hasSubstr s "<a href=" && hasSubstr s "../"

/-- The lookahead `for j in range(i + 2, min(i + 6, len(lines)))` searching the
first link line of a game card. -/
def findALine (lines : List String) (i : Nat) : Option Nat :=
  (List.range' (i + 2) (min (i + 6) lines.length - (i + 2))).find?
    (fun j => isLinkLine (lines.getD j ""))

/-- The rewritten card link `f'        <a href="../{game}/{yyyymmdd}.html">View Solution</a>\n'`. -/
def gameLink (code game : String) : String :=
  "        <a href=\"../" ++ game ++ "/" ++ code ++ ".html\">View Solution</a>\n"

/-- The four-way link rewrite of `update_today_index`; `none` is the final
`else` branch that passes the line through. -/
def rewriteALine (code aLine : String) : Option String :=
  if hasSubstr aLine "../minisudoku/" then some (gameLink code "minisudoku")
  else if hasSubstr aLine "../zip/" then some (gameLink code "zip")
  else if hasSubstr aLine "../queens/" then some (gameLink code "queens")
  else if hasSubstr aLine "../tango/" then some (gameLink code "tango")
  else none

/-- The replacement heading `f"    <h1>{display_date}</h1>\n"`. -/
def h1Line (dd : String) : String := "    <h1>" ++ dd ++ "</h1>\n"

/-- Bounds on the index returned by the lookahead. -/
theorem findALine_bounds {lines : List String} {i j : Nat}
    (h : findALine lines i = some j) : i + 2 ≤ j ∧ j < lines.length := by
  have hm := List.mem_of_find?_eq_some h
  have := List.mem_range'.1 hm
  omega

/-- The `while i < len(lines)` scan of `update_today_index`, processing the
document from position `i` on. `.error` models the `TypeError` raised by
`i < next_a_line_idx` when `next_a_line_idx` is `None` (no recognizable link
in the lookahead window). The fuel argument only bounds the recursion depth:
`i` strictly increases every iteration, so `lines.length - i + 1` units of
fuel always suffice and the `0` branch is never reached from `todayLoop`. -/
def todayLoopF (lines : List String) (code dd : String) :
    Nat → Nat → Except PyErr (List String × Bool)
  | 0, _ => .ok ([], false)
  | fuel + 1, i =>
    if i < lines.length then
      let line := lines.getD i ""
      if startsWithStr (pyStrip line) "<h1>" then
        match todayLoopF lines code dd fuel (i + 1) with
        | .error e => .error e
        | .ok (rest, _) => .ok (h1Line dd :: rest, true)
      else if hasSubstr line cardMarker && decide (i + 2 < lines.length) &&
              startsWithStr (pyStrip (lines.getD (i + 1) "")) "<h3>" then
        match findALine lines i with
        | none => .error .typeError
        | some j =>
          let copied := pySlice lines (i + 2) j
          let aLine := lines.getD j ""
          match rewriteALine code aLine with
          | some newA =>
            match todayLoopF lines code dd fuel (j + 1) with
            | .error e => .error e
            | .ok (rest, _) =>
              .ok (line :: lines.getD (i + 1) "" :: (copied ++ newA :: rest), true)
          | none =>
            match todayLoopF lines code dd fuel (j + 1) with
            | .error e => .error e
            | .ok (rest, ch) =>
              .ok (line :: lines.getD (i + 1) "" :: (copied ++ aLine :: rest), ch)
      else
        match todayLoopF lines code dd fuel (i + 1) with
        | .error e => .error e
        | .ok (rest, ch) => .ok (line :: rest, ch)
    else .ok ([], false)

/-- The full scan of `update_today_index`, starting at position `0`. -/
def todayLoop (lines : List String) (code dd : String) :
    Except PyErr (List String × Bool) :=
  todayLoopF lines code dd (lines.length + 1) 0

/-- `update_today_index(yyyymmdd)`. -/
def updateTodayIndex (fs : FS) (code : String) : Except PyErr (Bool × FS) :=
  match fs "today/index.html" with
  | none => .ok (false, fs)
  | some lines =>
    match formatTurkishDate code with
    | none => .error .invalidDate
    | some dd =>
      match todayLoop lines code dd with
      | .error e => .error e
      | .ok (newLines, changed) =>
        if changed then .ok (true, fsSet fs "today/index.html" newLines)
        else .ok (false, fs)

/-- Result of one external `git` invocation. -/
structure CmdResult where
  exitCode : Nat
  stdout : String

/-- `CalledProcessError` raised by `subprocess.run(..., check=True)`. -/
inductive PublishError
  | calledProcessError
deriving DecidableEq, Repr

/-- `["git", "branch", "--list", branch_name]`. -/
def branchListCmd (code : String) : List String := ["git", "branch", "--list", code]

/-- `["git", "checkout", branch_name]`. -/
def checkoutCmd (code : String) : List String := ["git", "checkout", code]

/-- `["git", "checkout", "-b", branch_name]`. -/
def checkoutNewCmd (code : String) : List String := ["git", "checkout", "-b", code]

/-- `["git", "add"] + changed_files`. -/
def addCmd (files : List String) : List String := ["git", "add"] ++ files

/-- `["git", "commit", "-m", commit_msg]`. -/
def commitCmd (code : String) : List String :=
  ["git", "commit", "-m", "Add " ++ code ++ " entry"]

/-- `git_commit_changes(yyyymmdd, changed_files)` against a command oracle.
On success it returns the list of commands that were invoked, in order. The
branch-listing call is run without `check=True`: its exit code is never
examined, only its stdout. Every later call uses `check=True`, so a non-zero
exit raises `CalledProcessError`. -/
def gitCommitChanges (run : List String → CmdResult) (code : String)
    (files : List String) : Except PublishError (List (List String)) :=
  if files.isEmpty then .ok []
  else
    let r0 := run (branchListCmd code)
    let c1 := if pyStrip r0.stdout ≠ "" then checkoutCmd code else checkoutNewCmd code
    let r1 := run c1
    if r1.exitCode ≠ 0 then .error .calledProcessError
    else
      let r2 := run (addCmd files)
      if r2.exitCode ≠ 0 then .error .calledProcessError
      else
        let r3 := run (commitCmd code)
        if r3.exitCode ≠ 0 then .error .calledProcessError
        else .ok [branchListCmd code, c1, addCmd files, commitCmd code]

/-- One step attempted by `__main__` (used to record that the run keeps
processing subsequent documents even after a reported failure). -/
inductive Op
  | addEntry (folder : String)
  | createDaily (folder : String)
  | updateRoot
  | updateToday
deriving DecidableEq, Repr

/-- The fixed folder list of `__main__`. -/
def mainFolders : List String := ["minisudoku", "zip", "queens", "tango"]

/-- The per-game loop of `__main__`: for each folder, run
`add_entry_to_index` then `create_daily_file`, collecting changed files.
Returns the trace of attempted steps (even when a later step raises). -/
def runGames (code : String) : List String → FS → List Op × Except PyErr (FS × List String)
  | [], fs => ([], .ok (fs, []))
  | f :: rest, fs =>
    match addEntryToIndex fs f code with
    | .error e => ([Op.addEntry f], .error e)
    | .ok (ch1, fs1) =>
      match createDailyFile fs1 f code with
      | .error e => ([Op.addEntry f, Op.createDaily f], .error e)
      | .ok (ch2, fs2) =>
        let (ops, res) := runGames code rest fs2
        (Op.addEntry f :: Op.createDaily f :: ops,
         match res with
         | .error e => .error e
         | .ok (fs3, files) =>
           .ok (fs3, (if ch1 then [f ++ "/index.html"] else []) ++
                     (if ch2 then [f ++ "/" ++ code ++ ".html"] else []) ++ files))

/-- The file-mutation phase of `__main__` (everything before the final
`git_commit_changes` call, which is modelled separately): per-game loop, then
`update_root_index`, then `update_today_index`. -/
def mainRun (fs : FS) (code : String) : List Op × Except PyErr (FS × List String) :=
  match runGames code mainFolders fs with
  | (ops, .error e) => (ops, .error e)
  | (ops, .ok (fs1, files1)) =>
    match updateRootIndex fs1 code with
    | .error e => (ops ++ [Op.updateRoot], .error e)
    | .ok (chR, fs2) =>
      match updateTodayIndex fs2 code with
      | .error e => (ops ++ [Op.updateRoot, Op.updateToday], .error e)
      | .ok (chT, fs3) =>
        (ops ++ [Op.updateRoot, Op.updateToday],
         .ok (fs3, files1 ++ (if chR then ["index.html"] else []) ++
                   (if chT then ["today/index.html"] else [])))

/-- `re.fullmatch(r"\d{8}", yyyymmdd)`. -/
def validArg (s : String) : Bool := s.toList.length = 8 && s.toList.all Char.isDigit

/-- Outcome of the command-line entry point: `usage` is `sys.exit(1)` reached
before any file was touched. -/
inductive CliOutcome
  | usage
  | ran (ops : List Op) (r : Except PyErr (FS × List String))

/-- The argument handling of `__main__`: `args` is `sys.argv[1:]`; a wrong
argument count or a failed 8-digit check exits with code 1 before any file
operation; otherwise the update pipeline runs. -/
def cliMain (args : List String) (fs : FS) : CliOutcome :=
  match args with
  | [a] =>
    if validArg a then
      match mainRun fs a with
      | (ops, r) => .ran ops r
    else .usage
  | _ => .usage

/-! ### Arithmetic helper lemmas about the decimal printer and the date parser -/

theorem natDigitsAux_fuel_irrel : ∀ f1 f2 n : Nat, n < f1 → n < f2 →
    natDigitsAux f1 n = natDigitsAux f2 n
  | 0, _, _, h1, _ => absurd h1 (by omega)
  | _ + 1, 0, _, _, h2 => absurd h2 (by omega)
  | f1 + 1, f2 + 1, n, h1, h2 => by
    simp only [natDigitsAux]
    split
    · rfl
    · have hd : n / 10 < n := Nat.div_lt_self (by omega) (by omega)
      rw [natDigitsAux_fuel_irrel f1 f2 (n / 10) (by omega) (by omega)]

theorem natDigits_unfold (n : Nat) :
    natDigits n = if n < 10 then [Char.ofNat (48 + n)]
                  else natDigits (n / 10) ++ [Char.ofNat (48 + n % 10)] := by
  show natDigitsAux (n + 1) n = _
  simp only [natDigitsAux]
  split
  · rfl
  · have hd : n / 10 < n := Nat.div_lt_self (by omega) (by omega)
    rw [natDigitsAux_fuel_irrel n (n / 10 + 1) (n / 10) (by omega) (by omega)]
    rfl

theorem digitChar_isDigit : ∀ k : Nat, k < 10 → (Char.ofNat (48 + k)).isDigit = true := by decide

theorem digitChar_ne_zero : ∀ k : Nat, 1 ≤ k → k < 10 → Char.ofNat (48 + k) ≠ '0' := by decide

theorem natDigits_all_digit (n : Nat) : ∀ c ∈ natDigits n, c.isDigit = true := by
  induction n using Nat.strong_induction_on with
  | _ n ih =>
    rw [natDigits_unfold]
    split
    · intro c hc
      simp only [List.mem_singleton] at hc
      subst hc
      exact digitChar_isDigit n (by omega)
    · intro c hc
      rcases List.mem_append.1 hc with hl | hr
      · exact ih (n / 10) (Nat.div_lt_self (by omega) (by omega)) c hl
      · simp only [List.mem_singleton] at hr
        subst hr
        exact digitChar_isDigit (n % 10) (Nat.mod_lt _ (by omega))

theorem natDigits_head_pos (n : Nat) (h : 1 ≤ n) :
    ∃ c t, natDigits n = c :: t ∧ c ≠ '0' := by
  induction n using Nat.strong_induction_on with
  | _ n ih =>
    rw [natDigits_unfold]
    split
    · exact ⟨Char.ofNat (48 + n), [], rfl, digitChar_ne_zero n h (by omega)⟩
    · obtain ⟨c, t, he, hc⟩ := ih (n / 10) (Nat.div_lt_self (by omega) (by omega))
        (by omega)
      exact ⟨c, t ++ [Char.ofNat (48 + n % 10)], by rw [he]; rfl, hc⟩

theorem natDigits_len4 (y : Nat) (h1 : 1000 ≤ y) (h2 : y ≤ 9999) :
    (natDigits y).length = 4 := by
  rw [natDigits_unfold, if_neg (by omega),
      natDigits_unfold (y / 10), if_neg (by omega),
      natDigits_unfold (y / 10 / 10), if_neg (by omega),
      natDigits_unfold (y / 10 / 10 / 10), if_pos (by omega)]
  simp

theorem daysInMonth_le31 (y m : Nat) : daysInMonth y m ≤ 31 := by
  unfold daysInMonth
  split
  · split <;> omega
  · split <;> omega

theorem toNat_of_isDigit {c : Char} (h : c.isDigit = true) :
    48 ≤ c.toNat ∧ c.toNat ≤ 57 := by
  simp only [Char.isDigit, ge_iff_le, Bool.and_eq_true, decide_eq_true_eq] at h
  obtain ⟨h1, h2⟩ := h
  rw [UInt32.le_def, BitVec.le_def] at h1 h2
  exact ⟨h1, h2⟩

theorem digitVal_le9 {c : Char} (h : c.isDigit = true) : digitVal c ≤ 9 := by
  have := toNat_of_isDigit h
  unfold digitVal
  omega

theorem parseDate8_bounds {s : String} {y m d : Nat}
    (h : parseDate8 s = some (y, m, d)) :
    1 ≤ y ∧ y ≤ 9999 ∧ 1 ≤ m ∧ m ≤ 12 ∧ 1 ≤ d ∧ d ≤ 31 := by
  unfold parseDate8 at h
  split at h
  case _ c1 c2 c3 c4 c5 c6 c7 c8 heq =>
    split at h
    case isTrue hdig =>
      dsimp only at h
      split at h
      case isTrue hb =>
        simp only [Option.some.injEq, Prod.mk.injEq] at h
        obtain ⟨hy, hm, hd⟩ := h
        simp only [Bool.and_eq_true, decide_eq_true_eq] at hb hdig
        obtain ⟨⟨⟨⟨hby, hbm⟩, hm12⟩, hd1⟩, hdm⟩ := hb
        have hle := daysInMonth_le31
          ((((digitVal c1 * 10 + digitVal c2) * 10 + digitVal c3) * 10 + digitVal c4))
          (digitVal c5 * 10 + digitVal c6)
        have va := digitVal_le9 hdig.1.1.1.1.1.1.1
        have vb := digitVal_le9 hdig.1.1.1.1.1.1.2
        have vc := digitVal_le9 hdig.1.1.1.1.1.2
        have vd := digitVal_le9 hdig.1.1.1.1.2
        subst hy hm hd
        omega
      case isFalse => exact absurd h (by simp)
    case isFalse => exact absurd h (by simp)
  case _ => exact absurd h (by simp)

/-! ### Claim C5 -/

/-- C5 (counterexample): the input `"09990101"` is 8 ASCII digits and a valid
Gregorian date, yet `format_turkish_date` renders its year as the 3-character
string `"999"`, so the output does not end in a 4-digit year. -/
theorem c5_counterexample :
    validArg "09990101" = true ∧
    (parseDate8 "09990101").isSome = true ∧
    formatTurkishDate "09990101" = some "January 1, 999" ∧
    (("January 1, 999".toList.reverse.take 4).all Char.isDigit) = false := by
  refine ⟨rfl, rfl, rfl, rfl⟩

/-- C5 (amended): for every 8-digit input that parses as a valid calendar
date, the output is `"<MonthName> <Day>, <Year>"` with the month name from the
fixed `MONTHS_TR` table, the day rendered with no leading zero, and the year
rendered in decimal with no zero-padding — which is 4 digits exactly when the
year is at least 1000. -/
theorem c5_format_display_date (s : String) (y m d : Nat)
    (h : parseDate8 s = some (y, m, d)) :
    formatTurkishDate s = some (monthsTr m ++ " " ++ natToStr d ++ ", " ++ natToStr y) ∧
    (∃ c t, natDigits d = c :: t ∧ c ≠ '0') ∧
    (1000 ≤ y → (natDigits y).length = 4) := by
  obtain ⟨hy1, hy2, _, _, hd1, _⟩ := parseDate8_bounds h
  exact ⟨by simp [formatTurkishDate, h], natDigits_head_pos d hd1,
    fun hy => natDigits_len4 y hy hy2⟩

/-- C5 (witness): instantiation of the amended claim at `"20250110"`. -/
theorem c5_witness :
    parseDate8 "20250110" = some (2025, 1, 10) ∧
    (formatTurkishDate "20250110" =
      some (monthsTr 1 ++ " " ++ natToStr 10 ++ ", " ++ natToStr 2025) ∧
     (∃ c t, natDigits 10 = c :: t ∧ c ≠ '0') ∧
     (1000 ≤ 2025 → (natDigits 2025).length = 4)) :=
  ⟨rfl, c5_format_display_date "20250110" 2025 1 10 rfl⟩

/-! ### Claim C6 -/

/-- C6: `create_daily_file` never overwrites: when a file already exists at
the target path (with arbitrary content), the filesystem is returned
untouched and the function reports `false`. The existence check precedes the
date rendering and the title lookup, so this holds for arbitrary folder and
code. -/
theorem c6_generate_page_no_overwrite (fs : FS) (folder code : String)
    (content : List String)
    (h : fs (folder ++ "/" ++ code ++ ".html") = some content) :
    createDailyFile fs folder code = .ok (false, fs) := by
  unfold createDailyFile
  simp [h]

/-- C6 (witness): a concrete pre-existing daily page is left alone. -/
theorem c6_witness :
    (fun q => if q = "zip/20250110.html" then some ["old content\n"] else none :
      FS) ("zip" ++ "/" ++ "20250110" ++ ".html") = some ["old content\n"] ∧
    createDailyFile
      (fun q => if q = "zip/20250110.html" then some ["old content\n"] else none)
      "zip" "20250110" =
      .ok (false, fun q => if q = "zip/20250110.html" then some ["old content\n"] else none) :=
  ⟨rfl, c6_generate_page_no_overwrite _ "zip" "20250110" ["old content\n"] rfl⟩

/-! ### Claim C7 -/

/-- The checkout command chosen by `git_commit_changes`: plain checkout when
the branch-listing output is nonempty, `-b` creation otherwise. -/
def pickCheckout (run : List String → CmdResult) (code : String) : List String :=
  if pyStrip (run (branchListCmd code)).stdout ≠ "" then checkoutCmd code
  else checkoutNewCmd code

/-- C7 (counterexample): a run in which the branch-listing command exits
non-zero while every other command succeeds. `git_commit_changes` does not
fail — the listing call is made without `check=True` — refuting the claim
that a non-zero exit of any underlying command, including branch listing,
raises `PublishError`. -/
theorem c7_counterexample :
    ((fun c => if c = branchListCmd "20250110" then CmdResult.mk 1 ""
               else CmdResult.mk 0 "") (branchListCmd "20250110")).exitCode ≠ 0 ∧
    gitCommitChanges
      (fun c => if c = branchListCmd "20250110" then CmdResult.mk 1 ""
                else CmdResult.mk 0 "")
      "20250110" ["zip/index.html"] =
      .ok [branchListCmd "20250110", checkoutNewCmd "20250110",
           addCmd ["zip/index.html"], commitCmd "20250110"] := by
  exact ⟨by decide, rfl⟩

/-- Unfolded form of `git_commit_changes` on a nonempty change set: the
branch-listing result only selects which checkout command runs; the three
checked commands gate the outcome. -/
theorem gitCommitChanges_ne_empty (run : List String → CmdResult) (code : String)
    (files : List String) (hne : files ≠ []) :
    gitCommitChanges run code files =
      (if (run (pickCheckout run code)).exitCode ≠ 0 then .error .calledProcessError
       else if (run (addCmd files)).exitCode ≠ 0 then .error .calledProcessError
       else if (run (commitCmd code)).exitCode ≠ 0 then .error .calledProcessError
       else .ok [branchListCmd code, pickCheckout run code, addCmd files,
                 commitCmd code]) := by
  have hfe : files.isEmpty = false := by
    cases files with
    | nil => exact absurd rfl hne
    | cons a t => rfl
  unfold gitCommitChanges pickCheckout
  rw [hfe]
  by_cases h0 : pyStrip (run (branchListCmd code)).stdout = "" <;> simp [h0]

/-- C7 (amended): with a nonempty change set, `git_commit_changes` raises
`PublishError` exactly when the chosen checkout command, the staging command,
or the commit command exits non-zero (the branch-listing command's exit
status is ignored); when it succeeds it has invoked the four commands in
order; and with an empty change set it is a no-op that invokes no
version-control command at all. -/
theorem c7_publish_error_behaviour (run : List String → CmdResult) (code : String)
    (files : List String) (hne : files ≠ []) :
    gitCommitChanges run code [] = .ok [] ∧
    (gitCommitChanges run code files = .error .calledProcessError ↔
      (run (pickCheckout run code)).exitCode ≠ 0 ∨
      (run (addCmd files)).exitCode ≠ 0 ∨
      (run (commitCmd code)).exitCode ≠ 0) ∧
    ((run (pickCheckout run code)).exitCode = 0 →
     (run (addCmd files)).exitCode = 0 →
     (run (commitCmd code)).exitCode = 0 →
      gitCommitChanges run code files =
        .ok [branchListCmd code, pickCheckout run code, addCmd files, commitCmd code]) := by
  rw [gitCommitChanges_ne_empty run code files hne]
  refine ⟨rfl, ?_, ?_⟩
  · by_cases h1 : (run (pickCheckout run code)).exitCode = 0 <;>
      by_cases h2 : (run (addCmd files)).exitCode = 0 <;>
      by_cases h3 : (run (commitCmd code)).exitCode = 0 <;>
      simp [h1, h2, h3]
  · intro h1 h2 h3
    simp [h1, h2, h3]

/-- C7 (witness): instantiation at a runner whose commands all succeed. -/
theorem c7_witness :
    (["zip/index.html"] : List String) ≠ [] ∧
    gitCommitChanges (fun _ => CmdResult.mk 0 "") "20250110" ["zip/index.html"] =
      .ok [branchListCmd "20250110", pickCheckout (fun _ => CmdResult.mk 0 "") "20250110",
           addCmd ["zip/index.html"], commitCmd "20250110"] :=
  ⟨by simp,
   (c7_publish_error_behaviour (fun _ => CmdResult.mk 0 "") "20250110"
      ["zip/index.html"] (by simp)).2.2 rfl rfl rfl⟩

/-! ### Claim C9 -/

/-- C9: the command-line layer exits with code 1 (`usage`) whenever the
argument count is not exactly one or the single argument fails the plain
8-digit format check, and in that case no pipeline step (hence no file
operation) is attempted; the 7-digit string `"2025923"` is such a rejected
argument. The check is purely about format: the calendar-invalid but
format-valid `"20250923"`-shaped code `"20250230"` passes it (calendar
validity only surfaces later, in the date formatter). -/
theorem c9_cli_validation :
    (∀ (args : List String) (fs : FS), args.length ≠ 1 → cliMain args fs = .usage) ∧
    (∀ (s : String) (fs : FS), validArg s = false → cliMain [s] fs = .usage) ∧
    validArg "2025923" = false ∧
    (validArg "20250230" = true ∧ parseDate8 "20250230" = none) := by
  refine ⟨?_, ?_, rfl, rfl, rfl⟩
  · intro args fs h
    cases args with
    | nil => rfl
    | cons a t =>
      cases t with
      | nil => simp at h
      | cons b t2 => rfl
  · intro s fs h
    unfold cliMain
    simp [h]

/-- C9 (witness): instantiation at the empty argument list and at the
7-digit argument from the specification scenario. -/
theorem c9_witness :
    ([] : List String).length ≠ 1 ∧
    cliMain [] (fun _ => none) = .usage ∧
    validArg "2025923" = false ∧
    cliMain ["2025923"] (fun _ => none) = .usage :=
  ⟨by decide, c9_cli_validation.1 [] (fun _ => none) (by decide),
   by decide, c9_cli_validation.2.1 "2025923" (fun _ => none) (by decide)⟩

/-! ### Claim C3 -/

/-- A landing-page document holding one recognized game card (card-open
marker, then an `<h3>` sub-heading) whose lookahead window contains no
recognizable relative link. -/
def c3CardLines : List String :=
  [ "<div class=\"game-card\">\n"
  , "  <h3>Queens</h3>\n"
  , "  <p>text</p>\n"
  , "  <p>more</p>\n" ]

/-- C3: on a document whose recognized game card has no recognizable link in
the fixed lookahead window, `update_today_index` raises `TypeError` (the
source compares `i < next_a_line_idx` with `next_a_line_idx = None`) instead
of passing the card through unmodified. This contradicts the claim (and the
author's own guard `if next_a_line_idx and ...` later in the function shows
graceful handling was intended). -/
theorem c3_missing_link_raises :
    hasSubstr (c3CardLines.getD 0 "") cardMarker = true ∧
    startsWithStr (pyStrip (c3CardLines.getD 1 "")) "<h3>" = true ∧
    findALine c3CardLines 0 = none ∧
    updateTodayIndex (fun q => if q = "today/index.html" then some c3CardLines else none)
      "20250110" = .error .typeError := by
  exact ⟨rfl, rfl, rfl, rfl⟩

/-! ### Lemmas about `parse_li_line` and the rendered entry line -/

theorem list_len8 {α : Type} (l : List α) (h : l.length = 8) :
    ∃ a b c d e f g k, l = [a, b, c, d, e, f, g, k] := by
  rcases l with _ | ⟨a, l⟩; · simp at h
  rcases l with _ | ⟨b, l⟩; · simp at h
  rcases l with _ | ⟨c, l⟩; · simp at h
  rcases l with _ | ⟨d, l⟩; · simp at h
  rcases l with _ | ⟨e, l⟩; · simp at h
  rcases l with _ | ⟨f, l⟩; · simp at h
  rcases l with _ | ⟨g, l⟩; · simp at h
  rcases l with _ | ⟨k, l⟩; · simp at h
  rcases l with _ | ⟨m, l⟩
  · exact ⟨a, b, c, d, e, f, g, k, rfl⟩
  · simp at h

theorem tryHrefAt_ne_h (c : Char) (l : List Char) (h : c ≠ 'h') :
    tryHrefAt (c :: l) = none := by
  unfold tryHrefAt
  rw [if_neg]
  show ¬("href=\"".toList.isPrefixOf (c :: l) = true)
  show ¬((('h' == c) && ("ref=\"".toList.isPrefixOf l)) = true)
  simp only [Bool.and_eq_true, beq_iff_eq]
  rintro ⟨rfl, -⟩
  exact h rfl

theorem scanHref_skip (pre : List Char) (l : List Char) (h : ∀ c ∈ pre, c ≠ 'h') :
    scanHref (pre ++ l) = scanHref l := by
  induction pre with
  | nil => rfl
  | cons c rest ih =>
    show scanHref (c :: (rest ++ l)) = scanHref l
    rw [scanHref, tryHrefAt_ne_h c _ (h c (List.mem_cons_self c rest))]
    exact ih fun x hx => h x (List.mem_cons_of_mem c hx)

theorem tryHrefAt_match (ds tail : List Char) (hlen : ds.length = 8)
    (hdig : ds.all Char.isDigit = true) :
    tryHrefAt ("href=\"".toList ++ (ds ++ (".html\"".toList ++ tail))) =
      some (String.mk ds) := by
  unfold tryHrefAt
  have hdrop : ("href=\"".toList ++ (ds ++ (".html\"".toList ++ tail))).drop 6 =
      ds ++ (".html\"".toList ++ tail) :=
    List.drop_left "href=\"".toList (ds ++ (".html\"".toList ++ tail))
  rw [if_pos, if_pos]
  · rw [hdrop]
    congr 1
    rw [← hlen, List.take_left]
  · rw [hdrop]
    have h1 : (ds ++ (".html\"".toList ++ tail)).take 8 = ds := by
      rw [← hlen, List.take_left]
    have h2 : (ds ++ (".html\"".toList ++ tail)).drop 8 = ".html\"".toList ++ tail := by
      rw [← hlen, List.drop_left]
    rw [h1, h2, hlen, hdig]
    simp only [Bool.true_and, decide_True, Bool.and_self, Bool.and_eq_true, decide_eq_true_eq]
    show (".html\"".toList.isPrefixOf (".html\"".toList ++ tail)) = true
    rw [ List.isPrefixOf_iff_prefix]
    exact List.prefix_append ..
  · rw [ List.isPrefixOf_iff_prefix]
    exact List.prefix_append ..

theorem parse_renderLiLine (code dd : String) (hlen : code.toList.length = 8)
    (hdig : code.toList.all Char.isDigit = true) :
    parseLiLine (renderLiLine code dd) = some code := by
  unfold parseLiLine renderLiLine
  have hsplit : ("    <li><a href=\"" ++ code ++ ".html\">" ++ dd ++ "</a></li>\n").toList =
      "    <li><a ".toList ++ ("href=\"".toList ++ (code.toList ++
        (".html\"".toList ++ ('>' :: (dd.toList ++ "</a></li>\n".toList))))) := by
    show "    <li><a href=\"".toList ++ code.toList ++ ".html\">".toList ++
        dd.toList ++ "</a></li>\n".toList = _
    simp only [List.append_assoc]
    rfl
  rw [hsplit, scanHref_skip _ _ (by decide)]
  have hcons : "href=\"".toList ++ (code.toList ++
      (".html\"".toList ++ ('>' :: (dd.toList ++ "</a></li>\n".toList)))) =
      'h' :: ("ref=\"".toList ++ (code.toList ++
        (".html\"".toList ++ ('>' :: (dd.toList ++ "</a></li>\n".toList))))) := rfl
  rw [hcons, scanHref, ← hcons, tryHrefAt_match _ _ hlen hdig]
  rfl

/-! ### Lemmas about the `existing` dict and the descending sort -/

theorem keys_upsert (k v : String) : ∀ acc : List (String × String),
    (upsert k v acc).map Prod.fst =
      if k ∈ acc.map Prod.fst then acc.map Prod.fst else acc.map Prod.fst ++ [k]
  | [] => by simp [upsert]
  | (k', v') :: rest => by
    by_cases hk : k' = k
    · subst hk
      simp [upsert]
    · simp only [upsert, if_neg hk, List.map_cons, keys_upsert k v rest]
      by_cases hmem : k ∈ rest.map Prod.fst
      · simp [hmem, hk, Ne.symm hk]
      · simp [hmem, hk, Ne.symm hk]

theorem mem_upsert (k v : String) : ∀ (acc : List (String × String)) (p : String × String),
    p ∈ upsert k v acc → p = (k, v) ∨ p ∈ acc := by
  intro acc
  induction acc with
  | nil =>
    intro p h
    simp only [upsert, List.mem_singleton] at h
    exact Or.inl h
  | cons hd rest ih =>
    intro p h
    obtain ⟨k', v'⟩ := hd
    by_cases hk : k' = k
    · subst hk
      simp only [upsert, if_pos rfl] at h
      cases h with
      | head => exact Or.inl rfl
      | tail _ h2 => exact Or.inr (List.mem_cons_of_mem _ h2)
    · simp only [upsert, if_neg hk] at h
      cases h with
      | head => exact Or.inr (List.mem_cons_self ..)
      | tail _ h2 =>
        cases ih p h2 with
        | inl h3 => exact Or.inl h3
        | inr h3 => exact Or.inr (List.mem_cons_of_mem _ h3)

theorem upsert_not_mem (k v : String) : ∀ acc : List (String × String),
    k ∉ acc.map Prod.fst → upsert k v acc = acc ++ [(k, v)]
  | [], _ => rfl
  | (k', v') :: rest, h => by
    simp only [List.map_cons, List.mem_cons] at h
    push_neg at h
    simp only [upsert, if_neg (Ne.symm h.1), List.cons_append, List.cons.injEq, true_and]
    exact upsert_not_mem k v rest h.2

theorem collect_mem : ∀ (ls : List String) (acc : List (String × String)) (p),
    p ∈ collectEntries ls acc →
    p ∈ acc ∨ (p.2 ∈ ls ∧ parseLiLine p.2 = some p.1)
  | [], _, p, h => Or.inl h
  | l :: ls, acc, p, h => by
    simp only [collectEntries] at h
    cases hp : parseLiLine l with
    | none =>
      rw [hp] at h
      rcases collect_mem ls acc p h with h2 | h2
      · exact Or.inl h2
      · exact Or.inr ⟨List.mem_cons_of_mem _ h2.1, h2.2⟩
    | some d =>
      rw [hp] at h
      rcases collect_mem ls (upsert d l acc) p h with h2 | h2
      · rcases mem_upsert d l acc p h2 with h3 | h3
        · subst h3
          exact Or.inr ⟨List.mem_cons_self .., hp⟩
        · exact Or.inl h3
      · exact Or.inr ⟨List.mem_cons_of_mem _ h2.1, h2.2⟩

theorem collect_keys : ∀ (ls : List String) (acc : List (String × String)) (k),
    k ∈ (collectEntries ls acc).map Prod.fst ↔
      k ∈ acc.map Prod.fst ∨ k ∈ ls.filterMap parseLiLine
  | [], _, k => by simp [collectEntries]
  | l :: ls, acc, k => by
    simp only [collectEntries]
    cases hp : parseLiLine l with
    | none =>
      rw [collect_keys ls acc k, List.filterMap_cons, hp]
    | some d =>
      rw [collect_keys ls (upsert d l acc) k, List.filterMap_cons, hp, keys_upsert]
      by_cases hmem : d ∈ acc.map Prod.fst
      · rw [if_pos hmem]
        constructor
        · rintro (h | h)
          · exact Or.inl h
          · exact Or.inr (List.mem_cons_of_mem _ h)
        · rintro (h | h)
          · exact Or.inl h
          · rcases List.mem_cons.1 h with h2 | h2
            · subst h2; exact Or.inl hmem
            · exact Or.inr h2
      · rw [if_neg hmem]
        simp only [List.mem_append, List.mem_singleton, List.mem_cons]
        tauto

theorem collect_keys_nodup : ∀ (ls : List String) (acc : List (String × String)),
    (acc.map Prod.fst).Nodup → ((collectEntries ls acc).map Prod.fst).Nodup
  | [], _, h => h
  | l :: ls, acc, h => by
    simp only [collectEntries]
    cases hp : parseLiLine l with
    | none => exact collect_keys_nodup ls acc h
    | some d =>
      apply collect_keys_nodup ls (upsert d l acc)
      rw [keys_upsert]
      by_cases hmem : d ∈ acc.map Prod.fst
      · rwa [if_pos hmem]
      · rw [if_neg hmem]
        simp [List.nodup_append, h, hmem]

theorem collect_of_keyed : ∀ (S acc : List (String × String)),
    (∀ p ∈ S, parseLiLine p.2 = some p.1) →
    ((acc.map Prod.fst ++ S.map Prod.fst).Nodup) →
    collectEntries (S.map Prod.snd) acc = acc ++ S
  | [], acc, _, _ => by simp [collectEntries]
  | (k, v) :: S, acc, hparse, hnd => by
    have hkv : parseLiLine v = some k := hparse (k, v) (List.mem_cons_self ..)
    simp only [List.map_cons, collectEntries, hkv]
    have hknotin : k ∉ acc.map Prod.fst := by
      intro hmem
      have : ¬ (acc.map Prod.fst).Disjoint (k :: S.map Prod.fst) := by
        intro hd
        exact hd hmem (List.mem_cons_self ..)
      rw [List.nodup_append] at hnd
      exact this hnd.2.2
    rw [upsert_not_mem k v acc hknotin]
    rw [collect_of_keyed S (acc ++ [(k, v)])
      (fun p hp => hparse p (List.mem_cons_of_mem _ hp))
      (by
        simp only [List.map_append, List.map_cons, List.map_nil] at hnd ⊢
        simpa [List.append_assoc] using hnd)]
    simp

theorem containsKey_iff (k : String) (l : List (String × String)) :
    containsKey k l = true ↔ k ∈ l.map Prod.fst := by
  simp [containsKey, List.any_eq_true, beq_iff_eq, List.mem_map]

theorem pairwise_and {α : Type} {R S : α → α → Prop} :
    ∀ {l : List α}, l.Pairwise R → l.Pairwise S →
      l.Pairwise fun a b => R a b ∧ S a b
  | [], _, _ => List.Pairwise.nil
  | a :: l, h1, h2 => by
    rw [List.pairwise_cons] at h1 h2 ⊢
    exact ⟨fun b hb => ⟨h1.1 b hb, h2.1 b hb⟩, pairwise_and h1.2 h2.2⟩

theorem filterMap_parse_eq_key : ∀ S : List (String × String),
    (∀ p ∈ S, parseLiLine p.2 = some p.1) →
    (S.map Prod.snd).filterMap parseLiLine = S.map Prod.fst
  | [], _ => rfl
  | (k, v) :: S, h => by
    simp only [List.map_cons, List.filterMap_cons, h (k, v) (List.mem_cons_self ..)]
    rw [filterMap_parse_eq_key S (fun p hp => h p (List.mem_cons_of_mem _ hp))]

/-- Properties of the rebuilt block `[existing[d] for d in sorted(existing.keys(),
reverse=True)]`, for any dict whose values parse back to their keys. -/
theorem sorted_block_spec (E2 : List (String × String))
    (hvals : ∀ p ∈ E2, parseLiLine p.2 = some p.1)
    (hnd : (E2.map Prod.fst).Nodup) :
    (∀ l ∈ (List.insertionSort keyGe E2).map Prod.snd, (parseLiLine l).isSome = true) ∧
    (((List.insertionSort keyGe E2).map Prod.snd).filterMap parseLiLine).Pairwise
      (fun dx dy => strLe dy dx = true ∧ dx ≠ dy) ∧
    (∀ k, k ∈ ((List.insertionSort keyGe E2).map Prod.snd).filterMap parseLiLine ↔
      k ∈ E2.map Prod.fst) ∧
    (∀ l ∈ (List.insertionSort keyGe E2).map Prod.snd, ∃ p ∈ E2, l = p.2) := by
  have hperm : (List.insertionSort keyGe E2).Perm E2 := List.perm_insertionSort keyGe E2
  have hSvals : ∀ p ∈ List.insertionSort keyGe E2, parseLiLine p.2 = some p.1 :=
    fun p hp => hvals p (hperm.subset hp)
  have hfm : ((List.insertionSort keyGe E2).map Prod.snd).filterMap parseLiLine =
      (List.insertionSort keyGe E2).map Prod.fst :=
    filterMap_parse_eq_key _ hSvals
  have hkeysperm : ((List.insertionSort keyGe E2).map Prod.fst).Perm (E2.map Prod.fst) :=
    hperm.map Prod.fst
  have hSnodup : ((List.insertionSort keyGe E2).map Prod.fst).Nodup :=
    hkeysperm.nodup_iff.2 hnd
  have hsorted : (List.insertionSort keyGe E2).Pairwise keyGe :=
    List.sorted_insertionSort keyGe E2
  refine ⟨?_, ?_, ?_, ?_⟩
  · intro l hl
    obtain ⟨p, hp, rfl⟩ := List.mem_map.1 hl
    rw [hSvals p hp]
    rfl
  · rw [hfm]
    have pw1 : ((List.insertionSort keyGe E2).map Prod.fst).Pairwise
        (fun dx dy => strLe dy dx = true) := (List.pairwise_map).2 hsorted
    exact pairwise_and pw1 hSnodup
  · intro k
    rw [hfm]
    exact hkeysperm.mem_iff
  · intro l hl
    obtain ⟨p, hp, rfl⟩ := List.mem_map.1 hl
    exact ⟨p, hperm.subset hp, rfl⟩

/-- Central specification of `add_entry_to_index`'s rewrite: when both markers
are located (at first positions `i` and `j`), the document is rebuilt as
`lines[:i+1] ++ block ++ lines[j:]` where every block line carries a date, the
dates are strictly descending lexicographically, the key set is exactly the
parsed keys of the old block together with `code`, every block line is either
an old block line or the freshly rendered one, and the reported change flag
is exactly "`code` was absent". -/
theorem addEntryCore_spec (lines : List String) (code dd : String) (i j : Nat)
    (hlen : code.toList.length = 8) (hdig : code.toList.all Char.isDigit = true)
    (hOpen : firstIdxWith (fun l => hasSubstr l "<ul>") lines = some i)
    (hClose : firstIdxWith (fun l => hasSubstr l "</ul>") lines = some j) :
    ∃ changed block,
      addEntryCore lines code dd =
        some (changed, lines.take (i + 1) ++ block ++ lines.drop j) ∧
      (∀ l ∈ block, (parseLiLine l).isSome = true) ∧
      (block.filterMap parseLiLine).Pairwise
        (fun dx dy => strLe dy dx = true ∧ dx ≠ dy) ∧
      (∀ k, k ∈ block.filterMap parseLiLine ↔
        k = code ∨ k ∈ (pySlice lines (i + 1) j).filterMap parseLiLine) ∧
      (∀ l ∈ block, l = renderLiLine code dd ∨ l ∈ pySlice lines (i + 1) j) ∧
      (changed = true ↔ code ∉ (pySlice lines (i + 1) j).filterMap parseLiLine) := by
  set E := collectEntries (pySlice lines (i + 1) j) [] with hEdef
  set E2 := if containsKey code E then E
            else E ++ [(code, renderLiLine code dd)] with hE2def
  have hEvals : ∀ p ∈ E, p.2 ∈ pySlice lines (i + 1) j ∧ parseLiLine p.2 = some p.1 := by
    intro p hp
    rcases collect_mem _ [] p hp with h | h
    · simp at h
    · exact h
  have hEkeys : ∀ k, k ∈ E.map Prod.fst ↔
      k ∈ (pySlice lines (i + 1) j).filterMap parseLiLine := by
    intro k
    have h := collect_keys (pySlice lines (i + 1) j) [] k
    simpa using h
  have hEnodup : (E.map Prod.fst).Nodup :=
    collect_keys_nodup (pySlice lines (i + 1) j) [] (by simp)
  have hfresh : parseLiLine (renderLiLine code dd) = some code :=
    parse_renderLiLine code dd hlen hdig
  have hiff : containsKey code E = true ↔
      code ∈ (pySlice lines (i + 1) j).filterMap parseLiLine :=
    (containsKey_iff code E).trans (hEkeys code)
  have hE2cases : (E2 = E ∧ containsKey code E = true) ∨
      (E2 = E ++ [(code, renderLiLine code dd)] ∧ containsKey code E = false) := by
    by_cases hc : containsKey code E = true
    · exact Or.inl ⟨by rw [hE2def, if_pos hc], hc⟩
    · exact Or.inr ⟨by rw [hE2def, if_neg hc], by simpa using hc⟩
  have hE2vals : ∀ p ∈ E2, parseLiLine p.2 = some p.1 := by
    rcases hE2cases with ⟨h0, _⟩ | ⟨h0, _⟩
    · rw [h0]; exact fun p hp => (hEvals p hp).2
    · rw [h0]
      intro p hp
      rcases List.mem_append.1 hp with h | h
      · exact (hEvals p h).2
      · simp only [List.mem_singleton] at h
        subst h
        exact hfresh
  have hE2src : ∀ p ∈ E2, p.2 = renderLiLine code dd ∨ p.2 ∈ pySlice lines (i + 1) j := by
    rcases hE2cases with ⟨h0, _⟩ | ⟨h0, _⟩
    · rw [h0]; exact fun p hp => Or.inr (hEvals p hp).1
    · rw [h0]
      intro p hp
      rcases List.mem_append.1 hp with h | h
      · exact Or.inr (hEvals p h).1
      · simp only [List.mem_singleton] at h
        subst h
        exact Or.inl rfl
  have hE2nodup : (E2.map Prod.fst).Nodup := by
    rcases hE2cases with ⟨h0, _⟩ | ⟨h0, hc⟩
    · rw [h0]; exact hEnodup
    · rw [h0]
      have hnotin : code ∉ E.map Prod.fst := by
        intro hmem
        rw [← containsKey_iff] at hmem
        rw [hmem] at hc
        cases hc
      simp [List.nodup_append, hEnodup, hnotin]
  have hE2keys : ∀ k, k ∈ E2.map Prod.fst ↔
      (k = code ∨ k ∈ (pySlice lines (i + 1) j).filterMap parseLiLine) := by
    intro k
    rcases hE2cases with ⟨h0, hc⟩ | ⟨h0, _⟩
    · rw [h0, hEkeys]
      constructor
      · exact Or.inr
      · rintro (rfl | h)
        · exact hiff.1 hc
        · exact h
    · rw [h0]
      simp only [List.map_append, List.map_cons, List.map_nil, List.mem_append,
        List.mem_singleton, hEkeys]
      tauto
  obtain ⟨hb1, hb2, hb3, hb4⟩ := sorted_block_spec E2 hE2vals hE2nodup
  refine ⟨!(containsKey code E), (List.insertionSort keyGe E2).map Prod.snd,
    ?_, hb1, hb2, ?_, ?_, ?_⟩
  · simp only [addEntryCore, hOpen, hClose]
  · intro k
    rw [hb3 k, hE2keys k]
  · intro l hl
    obtain ⟨p, hp, rfl⟩ := hb4 l hl
    exact hE2src p hp
  · rw [Bool.not_eq_true']
    rw [show (containsKey code E = false) ↔ ¬(containsKey code E = true) by simp]
    exact not_congr hiff

/-! ### Claims C1 and C4 -/

/-- C1: whenever `merge_entry` locates the entry block (both markers found,
at first positions `i` and `j`), the rewritten document is exactly
preamble `lines[:i+1]` ++ entry block ++ postamble `lines[j:]` (both segments
preserved verbatim); the entry block consists only of parsed entry lines plus
the freshly rendered line for `code` when it was absent, holds at most one
line per DateCode, and its DateCodes are strictly descending
lexicographically. -/
theorem c1_merge_block (lines : List String) (code dd : String) (i j : Nat)
    (hlen : code.toList.length = 8) (hdig : code.toList.all Char.isDigit = true)
    (hOpen : firstIdxWith (fun l => hasSubstr l "<ul>") lines = some i)
    (hClose : firstIdxWith (fun l => hasSubstr l "</ul>") lines = some j) :
    ∃ changed block,
      addEntryCore lines code dd =
        some (changed, lines.take (i + 1) ++ block ++ lines.drop j) ∧
      (∀ l ∈ block, (parseLiLine l).isSome = true) ∧
      (block.filterMap parseLiLine).Pairwise
        (fun dx dy => strLe dy dx = true ∧ dx ≠ dy) ∧
      (∀ k, k ∈ block.filterMap parseLiLine ↔
        k = code ∨ k ∈ (pySlice lines (i + 1) j).filterMap parseLiLine) ∧
      (∀ l ∈ block, l = renderLiLine code dd ∨ l ∈ pySlice lines (i + 1) j) ∧
      (changed = true ↔ code ∉ (pySlice lines (i + 1) j).filterMap parseLiLine) :=
  addEntryCore_spec lines code dd i j hlen hdig hOpen hClose

/-- A concrete index document (with one unparseable line) instantiating C1. -/
def c1Lines : List String :=
  [ "<html>\n", "  <ul>\n"
  , "    <li><a href=\"20250901.html\">September 1, 2025</a></li>\n"
  , "    junk line\n"
  , "    <li><a href=\"20250915.html\">September 15, 2025</a></li>\n"
  , "  </ul>\n", "</html>\n" ]

/-- C1 (witness): instantiation at a concrete document and `"20250910"`. -/
theorem c1_witness :
    ("20250910".toList.length = 8) ∧
    ("20250910".toList.all Char.isDigit = true) ∧
    firstIdxWith (fun l => hasSubstr l "<ul>") c1Lines = some 1 ∧
    firstIdxWith (fun l => hasSubstr l "</ul>") c1Lines = some 5 ∧
    (∃ changed block,
      addEntryCore c1Lines "20250910" "September 10, 2025" =
        some (changed, c1Lines.take (1 + 1) ++ block ++ c1Lines.drop 5) ∧
      (∀ l ∈ block, (parseLiLine l).isSome = true) ∧
      (block.filterMap parseLiLine).Pairwise
        (fun dx dy => strLe dy dx = true ∧ dx ≠ dy) ∧
      (∀ k, k ∈ block.filterMap parseLiLine ↔
        k = "20250910" ∨ k ∈ (pySlice c1Lines (1 + 1) 5).filterMap parseLiLine) ∧
      (∀ l ∈ block, l = renderLiLine "20250910" "September 10, 2025" ∨
        l ∈ pySlice c1Lines (1 + 1) 5) ∧
      (changed = true ↔
        "20250910" ∉ (pySlice c1Lines (1 + 1) 5).filterMap parseLiLine)) :=
  ⟨rfl, rfl, rfl, rfl,
   c1_merge_block c1Lines "20250910" "September 10, 2025" 1 5 rfl rfl rfl rfl⟩

/-- C4: lines inside the entry block with no recognizable DateCode never make
`merge_entry` fail — the rewrite still goes through — and the rewritten block
holds only lines carrying a DateCode, so unparseable lines are dropped from
the output. -/
theorem c4_unparseable_lines_dropped (lines : List String) (code dd : String)
    (i j : Nat)
    (hlen : code.toList.length = 8) (hdig : code.toList.all Char.isDigit = true)
    (hOpen : firstIdxWith (fun l => hasSubstr l "<ul>") lines = some i)
    (hClose : firstIdxWith (fun l => hasSubstr l "</ul>") lines = some j) :
    ∃ changed block,
      addEntryCore lines code dd =
        some (changed, lines.take (i + 1) ++ block ++ lines.drop j) ∧
      (∀ l ∈ block, (parseLiLine l).isSome = true) ∧
      (∀ l ∈ pySlice lines (i + 1) j, parseLiLine l = none → l ∉ block) := by
  obtain ⟨changed, block, heq, hall, -, -, -, -⟩ :=
    addEntryCore_spec lines code dd i j hlen hdig hOpen hClose
  refine ⟨changed, block, heq, hall, ?_⟩
  intro l _ hnone hmem
  have h2 := hall l hmem
  rw [hnone] at h2
  exact absurd h2 (by simp)

/-- C4 (witness): instantiation at a concrete document with a junk line. -/
theorem c4_witness :
    ("20250110".toList.length = 8) ∧
    ("20250110".toList.all Char.isDigit = true) ∧
    firstIdxWith (fun l => hasSubstr l "<ul>")
      ["<ul>\n", "  broken entry\n",
       "    <li><a href=\"20250901.html\">September 1, 2025</a></li>\n",
       "</ul>\n"] = some 0 ∧
    firstIdxWith (fun l => hasSubstr l "</ul>")
      ["<ul>\n", "  broken entry\n",
       "    <li><a href=\"20250901.html\">September 1, 2025</a></li>\n",
       "</ul>\n"] = some 3 ∧
    (∃ changed block,
      addEntryCore
        ["<ul>\n", "  broken entry\n",
         "    <li><a href=\"20250901.html\">September 1, 2025</a></li>\n",
         "</ul>\n"] "20250110" "January 10, 2025" =
        some (changed,
          (["<ul>\n", "  broken entry\n",
            "    <li><a href=\"20250901.html\">September 1, 2025</a></li>\n",
            "</ul>\n"] : List String).take (0 + 1) ++ block ++
          (["<ul>\n", "  broken entry\n",
            "    <li><a href=\"20250901.html\">September 1, 2025</a></li>\n",
            "</ul>\n"] : List String).drop 3) ∧
      (∀ l ∈ block, (parseLiLine l).isSome = true) ∧
      (∀ l ∈ pySlice
          ["<ul>\n", "  broken entry\n",
           "    <li><a href=\"20250901.html\">September 1, 2025</a></li>\n",
           "</ul>\n"] (0 + 1) 3, parseLiLine l = none → l ∉ block)) :=
  ⟨rfl, rfl, rfl, rfl,
   c4_unparseable_lines_dropped
     ["<ul>\n", "  broken entry\n",
      "    <li><a href=\"20250901.html\">September 1, 2025</a></li>\n",
      "</ul>\n"] "20250110" "January 10, 2025" 0 3 rfl rfl rfl rfl⟩

/-! ### Claim C10 -/

/-- If position `p` holds an `<h1>` line and no earlier line carries the
card-open marker, the scan reaches `p` at the top of its loop and sets the
change flag. -/
theorem todayLoopF_h1_changed (lines : List String) (code dd : String) (p : Nat)
    (hp : p < lines.length)
    (hh1 : startsWithStr (pyStrip (lines.getD p "")) "<h1>" = true)
    (hcard : ∀ q, q < p → hasSubstr (lines.getD q "") cardMarker = false) :
    ∀ (fuel i : Nat), i ≤ p → lines.length - i < fuel →
      ∀ out ch, todayLoopF lines code dd fuel i = .ok (out, ch) → ch = true := by
  intro fuel
  induction fuel with
  | zero => intro i hip hfuel; omega
  | succ f ih =>
    intro i hip hfuel out ch heq
    rw [todayLoopF] at heq
    rw [if_pos (show i < lines.length by omega)] at heq
    dsimp only at heq
    by_cases hh : startsWithStr (pyStrip (lines.getD i "")) "<h1>" = true
    · rw [if_pos hh] at heq
      cases hrec : todayLoopF lines code dd f (i + 1) with
      | error e => rw [hrec] at heq; cases heq
      | ok pr =>
        obtain ⟨rest, ch'⟩ := pr
        rw [hrec] at heq
        cases heq
        rfl
    · have hip' : i < p := by
        rcases Nat.lt_or_ge i p with hlt | hge
        · exact hlt
        · have hie : i = p := by omega
          rw [hie] at hh
          exact absurd hh1 hh
      rw [if_neg hh] at heq
      have hcardi : hasSubstr (lines.getD i "") cardMarker = false := hcard i hip'
      have hcond : (hasSubstr (lines.getD i "") cardMarker &&
          decide (i + 2 < lines.length) &&
          startsWithStr (pyStrip (lines.getD (i + 1) "")) "<h3>") = false := by
        rw [hcardi]
        rfl
      rw [if_neg (by rw [hcond]; decide)] at heq
      cases hrec : todayLoopF lines code dd f (i + 1) with
      | error e => rw [hrec] at heq; cases heq
      | ok pr =>
        obtain ⟨rest, chr⟩ := pr
        rw [hrec] at heq
        cases heq
        exact ih (i + 1) (by omega) (by omega) _ _ hrec

/-- C10 (counterexample): a document that does contain a line whose stripped
form starts with `<h1>` (at index 2), yet `update_today_index` reports
`changed = false` and leaves the document untouched — the `<h1>` line sits
inside a recognized game card's copied span, so the heading branch never sees
it and the card link matches none of the four games. -/
theorem c10_counterexample :
    (["<div class=\"game-card\">\n", "  <h3>X</h3>\n", "  <h1>t</h1>\n",
      "  <a href=\"../other/x.html\">v</a>\n"].any
        (fun l => startsWithStr (pyStrip l) "<h1>")) = true ∧
    updateTodayIndex
      (fun q => if q = "today/index.html" then
        some ["<div class=\"game-card\">\n", "  <h3>X</h3>\n", "  <h1>t</h1>\n",
              "  <a href=\"../other/x.html\">v</a>\n"] else none)
      "20250110" =
      .ok (false,
        fun q => if q = "today/index.html" then
          some ["<div class=\"game-card\">\n", "  <h3>X</h3>\n", "  <h1>t</h1>\n",
                "  <a href=\"../other/x.html\">v</a>\n"] else none) :=
  ⟨rfl, rfl⟩

/-- The repository's landing-page shape: heading first, then a game card
whose link already points at the current date. -/
def c10SameLines : List String :=
  [ "    <h1>January 10, 2025</h1>\n"
  , "    <div class=\"game-card\">\n"
  , "      <h3>Zip</h3>\n"
  , "      <p>x</p>\n"
  , "        <a href=\"../zip/20250110.html\">View Solution</a>\n"
  , "  </main>\n" ]

/-- C10 (amended): the landing-page scan reports `changed = true` whenever an
`<h1>` heading line occurs before any game-card marker line (the heading is
replaced unconditionally, with no comparison against existing content), and
likewise when a recognized card link is rewritten; in particular on a document
of the landing page's shape the result is `changed = true` with the output
byte-for-byte identical to the input, so repeated runs with the same date
keep reporting the landing page as changed. An `<h1>` line lying inside a
recognized card's copied span is, however, copied verbatim without setting
the flag. -/
theorem c10_today_always_changed (lines : List String) (code dd : String) (p : Nat)
    (hp : p < lines.length)
    (hh1 : startsWithStr (pyStrip (lines.getD p "")) "<h1>" = true)
    (hcard : ∀ q, q < p → hasSubstr (lines.getD q "") cardMarker = false)
    (out : List String) (ch : Bool)
    (heq : todayLoop lines code dd = .ok (out, ch)) :
    ch = true ∧
    todayLoop c10SameLines "20250110" "January 10, 2025" = .ok (c10SameLines, true) :=
  ⟨todayLoopF_h1_changed lines code dd p hp hh1 hcard (lines.length + 1) 0
    (by omega) (by omega) out ch heq, rfl⟩

/-- C10 (witness): instantiation at the landing-page-shaped document. -/
theorem c10_witness :
    (0 < c10SameLines.length) ∧
    startsWithStr (pyStrip (c10SameLines.getD 0 "")) "<h1>" = true ∧
    todayLoop c10SameLines "20250110" "January 10, 2025" =
      .ok (c10SameLines, true) ∧
    (true = true ∧
     todayLoop c10SameLines "20250110" "January 10, 2025" = .ok (c10SameLines, true)) :=
  ⟨by decide, rfl, rfl,
   c10_today_always_changed c10SameLines "20250110" "January 10, 2025" 0
     (by decide) rfl (fun q hq => absurd hq (by omega)) c10SameLines true rfl⟩

/-! ### Claim C8 -/

theorem strToList_append (a b : String) : (a ++ b).toList = a.toList ++ b.toList := rfl

theorem formatTurkishDate_len8 {code : String}
    (h : (formatTurkishDate code).isSome = true) : code.toList.length = 8 := by
  unfold formatTurkishDate at h
  cases hp : parseDate8 code with
  | none => rw [hp] at h; cases h
  | some v =>
    clear h
    unfold parseDate8 at hp
    split at hp
    case _ c1 c2 c3 c4 c5 c6 c7 c8 heq => rw [heq]; rfl
    case _ => cases hp

theorem addEntryToIndex_missing (fs : FS) (f code : String)
    (h : fs (f ++ "/index.html") = none) :
    addEntryToIndex fs f code = .ok (false, fs) := by
  simp only [addEntryToIndex, h]

theorem addEntryToIndex_ok (fs : FS) (f code : String)
    (hvalid : (formatTurkishDate code).isSome = true) :
    ∃ ch fs', addEntryToIndex fs f code = .ok (ch, fs') ∧
      ∀ q, fs q = none → fs' q = none := by
  cases hfmt : formatTurkishDate code with
  | none => rw [hfmt] at hvalid; cases hvalid
  | some dd =>
    cases hfs : fs (f ++ "/index.html") with
    | none =>
      refine ⟨false, fs, ?_, fun q hq => hq⟩
      simp only [addEntryToIndex, hfs]
    | some lines =>
      cases hcore : addEntryCore lines code dd with
      | none =>
        refine ⟨false, fs, ?_, fun q hq => hq⟩
        simp only [addEntryToIndex, hfs, hfmt, hcore]
      | some pr =>
        obtain ⟨ch, out⟩ := pr
        refine ⟨ch, fsSet fs (f ++ "/index.html") out, ?_, ?_⟩
        · simp only [addEntryToIndex, hfs, hfmt, hcore]
        · intro q hq
          unfold fsSet
          by_cases hqp : q = f ++ "/index.html"
          · rw [hqp] at hq
            rw [hq] at hfs
            cases hfs
          · rw [if_neg hqp]
            exact hq

theorem createDailyFile_ok (fs : FS) (f code : String)
    (hvalid : (formatTurkishDate code).isSome = true)
    (htitle : (dictTitle f).isSome = true) :
    ∃ ch fs', createDailyFile fs f code = .ok (ch, fs') ∧
      ∀ q, fs q = none → q ≠ f ++ "/" ++ code ++ ".html" → fs' q = none := by
  cases hfmt : formatTurkishDate code with
  | none => rw [hfmt] at hvalid; cases hvalid
  | some dd =>
    cases htit : dictTitle f with
    | none => rw [htit] at htitle; cases htitle
    | some title =>
      cases hfs : fs (f ++ "/" ++ code ++ ".html") with
      | some c =>
        refine ⟨false, fs, ?_, fun q hq _ => hq⟩
        simp only [createDailyFile, hfs]
      | none =>
        refine ⟨true,
          fsSet fs (f ++ "/" ++ code ++ ".html") (dailyTemplate f code title dd), ?_, ?_⟩
        · simp only [createDailyFile, hfs, hfmt, htit]
        · intro q hq hqp
          unfold fsSet
          rw [if_neg hqp]
          exact hq

theorem updateRootIndex_ok (fs : FS) (code : String)
    (hvalid : (formatTurkishDate code).isSome = true) :
    ∃ ch fs', updateRootIndex fs code = .ok (ch, fs') ∧
      ∀ q, q ≠ "index.html" → fs' q = fs q := by
  cases hfmt : formatTurkishDate code with
  | none => rw [hfmt] at hvalid; cases hvalid
  | some dd =>
    cases hfs : fs "index.html" with
    | none =>
      refine ⟨false, fs, ?_, fun q _ => rfl⟩
      simp only [updateRootIndex, hfs]
    | some lines =>
      by_cases hch : (lines.map (rootPatchLine dd)).any Prod.snd = true
      · refine ⟨true, fsSet fs "index.html" ((lines.map (rootPatchLine dd)).map Prod.fst),
          ?_, ?_⟩
        · simp only [updateRootIndex, hfs, hfmt]
          rw [if_pos hch]
        · intro q hq
          unfold fsSet
          rw [if_neg hq]
      · refine ⟨false, fs, ?_, fun q _ => rfl⟩
        simp only [updateRootIndex, hfs, hfmt]
        rw [if_neg hch]

theorem updateTodayIndex_frame (fs : FS) (code : String) (ch : Bool) (fs' : FS)
    (h : updateTodayIndex fs code = .ok (ch, fs')) :
    ∀ q, q ≠ "today/index.html" → fs' q = fs q := by
  intro q hq
  cases hfs : fs "today/index.html" with
  | none =>
    simp only [updateTodayIndex, hfs] at h
    cases h
    rfl
  | some lines =>
    simp only [updateTodayIndex, hfs] at h
    cases hfmt : formatTurkishDate code with
    | none => simp only [hfmt] at h; cases h
    | some dd =>
      simp only [hfmt] at h
      cases hloop : todayLoop lines code dd with
      | error e => simp only [hloop] at h; cases h
      | ok pr =>
        obtain ⟨nl, chb⟩ := pr
        simp only [hloop] at h
        cases chb with
        | true =>
          rw [if_pos rfl] at h
          cases h
          unfold fsSet
          rw [if_neg hq]
        | false =>
          rw [if_neg (by decide)] at h
          cases h
          rfl

/-- The steps attempted by the per-game loop of `__main__`. -/
def gameOps : List String → List Op
  | [] => []
  | f :: rest => Op.addEntry f :: Op.createDaily f :: gameOps rest

theorem runGames_spec (code : String)
    (hvalid : (formatTurkishDate code).isSome = true) :
    ∀ (fl : List String) (fs : FS), (∀ f ∈ fl, (dictTitle f).isSome = true) →
      ∃ fs' files, runGames code fl fs = (gameOps fl, .ok (fs', files)) ∧
        ∀ q, fs q = none → (∀ f ∈ fl, q ≠ f ++ "/" ++ code ++ ".html") →
          fs' q = none := by
  intro fl
  induction fl with
  | nil => exact fun fs _ => ⟨fs, [], rfl, fun q hq _ => hq⟩
  | cons f rest ih =>
    intro fs htitles
    obtain ⟨ch1, fs1, h1, hn1⟩ := addEntryToIndex_ok fs f code hvalid
    obtain ⟨ch2, fs2, h2, hn2⟩ := createDailyFile_ok fs1 f code hvalid
      (htitles f (List.mem_cons_self ..))
    obtain ⟨fs3, files, h3, hn3⟩ :=
      ih fs2 (fun g hg => htitles g (List.mem_cons_of_mem _ hg))
    refine ⟨fs3, (if ch1 then [f ++ "/index.html"] else []) ++
      (if ch2 then [f ++ "/" ++ code ++ ".html"] else []) ++ files, ?_, ?_⟩
    · simp only [runGames, h1, h2, h3, gameOps]
    · intro q hq hne
      exact hn3 q (hn2 q (hn1 q hq) (hne f (List.mem_cons_self ..)))
        (fun g hg => hne g (List.mem_cons_of_mem _ hg))

theorem queens_idx_ne_daily (f code : String) (hf : f ∈ mainFolders)
    (hlen : code.toList.length = 8) :
    "queens/index.html" ≠ f ++ "/" ++ code ++ ".html" := by
  have hm : f = "minisudoku" ∨ f = "zip" ∨ f = "queens" ∨ f = "tango" := by
    simpa [mainFolders] using hf
  rcases hm with rfl | rfl | rfl | rfl
  · intro h
    have h3 := congrArg (fun s => s.toList.length) h
    simp only [strToList_append, List.length_append] at h3
    rw [hlen] at h3
    rw [show ("minisudoku".toList).length = 10 from rfl,
        show ("/".toList).length = 1 from rfl,
        show (".html".toList).length = 5 from rfl] at h3
    exact absurd h3 (by decide)
  · intro h
    have h3 : some 'q' = some 'z' := congrArg (fun s => s.toList.head?) h
    exact absurd h3 (by decide)
  · intro h
    have h3 := congrArg (fun s => s.toList.length) h
    simp only [strToList_append, List.length_append] at h3
    rw [hlen] at h3
    rw [show ("queens".toList).length = 6 from rfl,
        show ("/".toList).length = 1 from rfl,
        show (".html".toList).length = 5 from rfl] at h3
    exact absurd h3 (by decide)
  · intro h
    have h3 := congrArg (fun s => s.toList.length) h
    simp only [strToList_append, List.length_append] at h3
    rw [hlen] at h3
    rw [show ("tango".toList).length = 5 from rfl,
        show ("/".toList).length = 1 from rfl,
        show (".html".toList).length = 5 from rfl] at h3
    exact absurd h3 (by decide)

/-- C8: a missing per-game index document is non-fatal. `add_entry_to_index`
on a missing document reports and returns `False` without mutating anything
or raising; with a parseable code the run still attempts every remaining
step — both steps of all four games, the homepage, and the landing page — and
on a successful run the missing `queens/index.html` is still absent at the
end (nothing recreated it). -/
theorem c8_missing_index_non_fatal (fs : FS) (code : String)
    (hmiss : fs "queens/index.html" = none)
    (hvalid : (formatTurkishDate code).isSome = true) :
    (∀ (g : FS) (f : String), g (f ++ "/index.html") = none →
       addEntryToIndex g f code = .ok (false, g)) ∧
    (mainRun fs code).1 =
      [Op.addEntry "minisudoku", Op.createDaily "minisudoku",
       Op.addEntry "zip", Op.createDaily "zip",
       Op.addEntry "queens", Op.createDaily "queens",
       Op.addEntry "tango", Op.createDaily "tango",
       Op.updateRoot, Op.updateToday] ∧
    (∀ (fs3 : FS) (files : List String), (mainRun fs code).2 = .ok (fs3, files) →
       fs3 "queens/index.html" = none) := by
  have hlen := formatTurkishDate_len8 hvalid
  obtain ⟨fs1, files1, hrg, hnone1⟩ := runGames_spec code hvalid mainFolders fs (by decide)
  have hq1 : fs1 "queens/index.html" = none :=
    hnone1 _ hmiss (fun f hf => queens_idx_ne_daily f code hf hlen)
  obtain ⟨chR, fs2, hroot, hframeR⟩ := updateRootIndex_ok fs1 code hvalid
  have hq2 : fs2 "queens/index.html" = none := by
    rw [hframeR _ (by decide)]
    exact hq1
  refine ⟨fun g f h => addEntryToIndex_missing g f code h, ?_, ?_⟩
  · cases ht : updateTodayIndex fs2 code with
    | error e =>
      simp only [mainRun, hrg, hroot, ht]
      rfl
    | ok pr =>
      obtain ⟨chT, fs3t⟩ := pr
      simp only [mainRun, hrg, hroot, ht]
      rfl
  · intro fs3 files hok
    cases ht : updateTodayIndex fs2 code with
    | error e =>
      have hm2 : (mainRun fs code).2 = .error e := by
        simp only [mainRun, hrg, hroot, ht]
      rw [hm2] at hok
      cases hok
    | ok pr =>
      obtain ⟨chT, fs3t⟩ := pr
      have hm2 : (mainRun fs code).2 =
          .ok (fs3t, files1 ++ (if chR then ["index.html"] else []) ++
            (if chT then ["today/index.html"] else [])) := by
        simp only [mainRun, hrg, hroot, ht]
      rw [hm2] at hok
      cases hok
      rw [updateTodayIndex_frame _ _ _ _ ht "queens/index.html" (by decide)]
      exact hq2

/-- C8 (witness): instantiation at an empty directory tree. -/
theorem c8_witness :
    ((fun _ => none : FS) "queens/index.html" = none) ∧
    ((formatTurkishDate "20250110").isSome = true) ∧
    ((∀ (g : FS) (f : String), g (f ++ "/index.html") = none →
        addEntryToIndex g f "20250110" = .ok (false, g)) ∧
     (mainRun (fun _ => none) "20250110").1 =
       [Op.addEntry "minisudoku", Op.createDaily "minisudoku",
        Op.addEntry "zip", Op.createDaily "zip",
        Op.addEntry "queens", Op.createDaily "queens",
        Op.addEntry "tango", Op.createDaily "tango",
        Op.updateRoot, Op.updateToday] ∧
     (∀ (fs3 : FS) (files : List String),
        (mainRun (fun _ => none) "20250110").2 = .ok (fs3, files) →
        fs3 "queens/index.html" = none)) :=
  ⟨rfl, rfl, c8_missing_index_non_fatal (fun _ => none) "20250110" rfl rfl⟩

/-! ### Claim C2: supporting lemmas -/

theorem firstIdxWith_spec (p : String → Bool) :
    ∀ (l : List String) (n : Nat), firstIdxWith p l = some n →
      n < l.length ∧ p (l.getD n "") = true ∧ ∀ m, m < n → p (l.getD m "") = false := by
  intro l
  induction l with
  | nil => intro n h; cases h
  | cons x xs ih =>
    intro n h
    cases hpx : p x with
    | true =>
      simp only [firstIdxWith, hpx, if_true] at h
      cases h
      exact ⟨by simp, hpx, fun m hm => absurd hm (by omega)⟩
    | false =>
      simp only [firstIdxWith, hpx, Bool.false_eq_true, if_false] at h
      cases hrec : firstIdxWith p xs with
      | none => rw [hrec] at h; cases h
      | some k =>
        rw [hrec] at h
        simp only [Option.map] at h
        cases h
        obtain ⟨h1, h2, h3⟩ := ih k hrec
        refine ⟨by simp only [List.length_cons]; omega, h2, ?_⟩
        intro m hm
        cases m with
        | zero => exact hpx
        | succ m2 => exact h3 m2 (by omega)

theorem firstIdxWith_intro (p : String → Bool) :
    ∀ (l : List String) (n : Nat), n < l.length → p (l.getD n "") = true →
      (∀ m, m < n → p (l.getD m "") = false) → firstIdxWith p l = some n := by
  intro l
  induction l with
  | nil => intro n h; exact absurd h (by simp)
  | cons x xs ih =>
    intro n hn hp2 hmin
    cases n with
    | zero =>
      simp only [firstIdxWith]
      rw [if_pos (show p x = true from hp2)]
    | succ k =>
      have hx : p x = false := hmin 0 (by omega)
      simp only [firstIdxWith, hx, Bool.false_eq_true, if_false]
      rw [ih k (by simp only [List.length_cons] at hn; omega) hp2
        (fun m hm => hmin (m + 1) (by omega))]
      rfl

theorem mem_slice_getD (lines : List String) (a c : Nat) (l : String)
    (h : l ∈ (lines.drop a).take c) :
    ∃ m, a ≤ m ∧ m < a + c ∧ m < lines.length ∧ lines.getD m "" = l := by
  obtain ⟨t, ht⟩ := List.mem_iff_getElem?.1 h
  have htc : t < c := by
    by_contra hge
    rw [List.getElem?_take, if_neg (by omega)] at ht
    cases ht
  rw [List.getElem?_take, if_pos htc, List.getElem?_drop] at ht
  have hlen := (List.getElem?_eq_some.1 ht).1
  refine ⟨a + t, by omega, by omega, hlen, ?_⟩
  rw [List.getD_eq_getElem?_getD, ht]
  rfl

/-- A mismatch between `p` and `s` occurs within `s` itself, so `p` cannot
match at the start of `s ++ b` for any continuation `b`. -/
def noExtendMatch : List Char → List Char → Bool
  | _, [] => false
  | [], _ :: _ => false
  | c :: p2, d :: s2 => (c != d) || noExtendMatch p2 s2

theorem noExtendMatch_spec : ∀ (p s b : List Char), noExtendMatch p s = true →
    p.isPrefixOf (s ++ b) = false
  | p, [], _, h => by cases p <;> cases h
  | [], _ :: _, _, h => by cases h
  | c :: p2, d :: s2, b, h => by
    simp only [noExtendMatch, Bool.or_eq_true, bne_iff_ne] at h
    show ((c == d) && List.isPrefixOf p2 (s2 ++ b)) = false
    rcases h with h | h
    · simp [h]
    · rw [noExtendMatch_spec p2 s2 b h]
      simp

/-- Every occurrence of `p` starting inside this segment fails within the
segment, independently of what follows. -/
def noStradB (p : List Char) : List Char → Bool
  | [] => true
  | c :: rest => noExtendMatch p (c :: rest) && noStradB p rest

theorem noStradB_append : ∀ (p a b : List Char), noStradB p a = true →
    hasInfixChars p (a ++ b) = hasInfixChars p b
  | _, [], _, _ => rfl
  | p, c :: a2, b, h => by
    simp only [noStradB, Bool.and_eq_true] at h
    show (p.isPrefixOf ((c :: a2) ++ b) || hasInfixChars p (a2 ++ b)) = hasInfixChars p b
    rw [noExtendMatch_spec p (c :: a2) b h.1, noStradB_append p a2 b h.2]
    simp

theorem noStradB_of_no_lt (p2 s : List Char) (h : ∀ c ∈ s, c ≠ '<') :
    noStradB ('<' :: p2) s = true := by
  induction s with
  | nil => rfl
  | cons d s2 ih =>
    simp only [noStradB, Bool.and_eq_true]
    refine ⟨?_, ih (fun c hc => h c (List.mem_cons_of_mem _ hc))⟩
    simp only [noExtendMatch, Bool.or_eq_true, bne_iff_ne]
    exact Or.inl (Ne.symm (h d (List.mem_cons_self ..)))

theorem isDigit_ne_lt {c : Char} (h : c.isDigit = true) : c ≠ '<' := by
  intro he
  rw [he] at h
  exact absurd h (by decide)

theorem renderLiLine_no_close_ul (code dd : String)
    (hdig : code.toList.all Char.isDigit = true)
    (hdd : ∀ c ∈ dd.toList, c ≠ '<') :
    hasSubstr (renderLiLine code dd) "</ul>" = false := by
  have hsplit : (renderLiLine code dd).toList =
      "    <li><a href=\"".toList ++ (code.toList ++ (".html\">".toList ++
        (dd.toList ++ "</a></li>\n".toList))) := by
    show ("    <li><a href=\"" ++ code ++ ".html\">" ++ dd ++ "</a></li>\n").toList = _
    simp only [strToList_append, List.append_assoc]
  show hasInfixChars "</ul>".toList (renderLiLine code dd).toList = false
  rw [hsplit]
  rw [noStradB_append _ _ _ (by decide)]
  rw [noStradB_append _ _ _
    (show noStradB "</ul>".toList code.toList = true from
      noStradB_of_no_lt "/ul>".toList code.toList
        (fun c hc => isDigit_ne_lt (List.all_eq_true.1 hdig c hc)))]
  rw [noStradB_append _ _ _ (by decide)]
  rw [noStradB_append _ _ _
    (show noStradB "</ul>".toList dd.toList = true from
      noStradB_of_no_lt "/ul>".toList dd.toList hdd)]
  decide

theorem getD_take (l : List String) (n m : Nat) (h : m < n) :
    (l.take n).getD m "" = l.getD m "" := by
  rw [List.getD_eq_getElem?_getD, List.getD_eq_getElem?_getD,
    List.getElem?_take, if_pos h]

theorem getD_drop (l : List String) (a t : Nat) :
    (l.drop a).getD t "" = l.getD (a + t) "" := by
  rw [List.getD_eq_getElem?_getD, List.getD_eq_getElem?_getD, List.getElem?_drop]

theorem getD_mem (l : List String) (t : Nat) (h : t < l.length) :
    l.getD t "" ∈ l := by
  rw [List.getD_eq_getElem?_getD, List.getElem?_eq_getElem h]
  exact List.getElem_mem h

theorem fsSet_idem (fs : FS) (p : String) (v : List String) :
    fsSet (fsSet fs p v) p v = fsSet fs p v := by
  funext q
  unfold fsSet
  by_cases h : q = p <;> simp [h]

theorem formatTurkishDate_digits {code : String}
    (h : (formatTurkishDate code).isSome = true) :
    code.toList.all Char.isDigit = true := by
  unfold formatTurkishDate at h
  cases hp : parseDate8 code with
  | none => rw [hp] at h; cases h
  | some v =>
    clear h
    unfold parseDate8 at hp
    split at hp
    case _ c1 c2 c3 c4 c5 c6 c7 c8 heq =>
      split at hp
      case isTrue hdig =>
        rw [heq]
        simp only [Bool.and_eq_true] at hdig
        simp only [List.all_cons, List.all_nil, Bool.and_eq_true, Bool.and_true, and_true]
        tauto
      case isFalse => cases hp
    case _ => cases hp

theorem monthsTr_no_lt (m : Nat) : ∀ c ∈ (monthsTr m).toList, c ≠ '<' := by
  unfold monthsTr
  split <;> decide

theorem formatTurkishDate_no_lt {code dd : String}
    (h : formatTurkishDate code = some dd) : ∀ c ∈ dd.toList, c ≠ '<' := by
  unfold formatTurkishDate at h
  cases hp : parseDate8 code with
  | none => rw [hp] at h; cases h
  | some v =>
    rw [hp] at h
    obtain ⟨y, m, d⟩ := v
    simp only [Option.some.injEq] at h
    subst h
    intro c hc
    rw [show (monthsTr m ++ " " ++ natToStr d ++ ", " ++ natToStr y).toList =
      (monthsTr m).toList ++ (" ".toList ++ ((natToStr d).toList ++
        (", ".toList ++ (natToStr y).toList))) from by
          simp [strToList_append, List.append_assoc]] at hc
    rcases List.mem_append.1 hc with hc | hc
    · exact monthsTr_no_lt m c hc
    rcases List.mem_append.1 hc with hc | hc
    · exact (show ∀ x ∈ (" ".toList), x ≠ '<' by decide) c hc
    rcases List.mem_append.1 hc with hc | hc
    · exact isDigit_ne_lt (natDigits_all_digit d c hc)
    rcases List.mem_append.1 hc with hc | hc
    · exact (show ∀ x ∈ (", ".toList), x ≠ '<' by decide) c hc
    · exact isDigit_ne_lt (natDigits_all_digit y c hc)

/-- Second pass of the rewrite: running the block rewrite on a document whose
block is already a sorted, deduplicated, fully-parseable rendering containing
`code` leaves the document unchanged and reports no change. -/
theorem addEntryCore_on_sorted (lines : List String) (code dd : String) (i j : Nat)
    (S : List (String × String))
    (hilen : i < lines.length)
    (hpi : hasSubstr (lines.getD i "") "<ul>" = true)
    (hmini : ∀ m, m < i → hasSubstr (lines.getD m "") "<ul>" = false)
    (hjlen : j < lines.length)
    (hpj : hasSubstr (lines.getD j "") "</ul>" = true)
    (hminj : ∀ m, m < j → hasSubstr (lines.getD m "") "</ul>" = false)
    (hord : i < j)
    (hSvals : ∀ p ∈ S, parseLiLine p.2 = some p.1)
    (hSnodup : (S.map Prod.fst).Nodup)
    (hSsorted : S.Sorted keyGe)
    (hBnoClose : ∀ l ∈ S.map Prod.snd, hasSubstr l "</ul>" = false)
    (hcodeS : code ∈ S.map Prod.fst) :
    addEntryCore (lines.take (i + 1) ++ S.map Prod.snd ++ lines.drop j) code dd =
      some (false, lines.take (i + 1) ++ S.map Prod.snd ++ lines.drop j) := by
  have hlenA : (lines.take (i + 1)).length = i + 1 := by
    rw [List.length_take]
    omega
  have hgetPre : ∀ m, m ≤ i →
      (lines.take (i + 1) ++ S.map Prod.snd ++ lines.drop j).getD m "" =
        lines.getD m "" := by
    intro m hm
    rw [List.getD_append _ _ _ _ (by rw [List.length_append, hlenA]; omega)]
    rw [List.getD_append _ _ _ _ (by rw [hlenA]; omega)]
    rw [getD_take _ _ _ (by omega)]
  have hgetB : ∀ t, t < S.length →
      (lines.take (i + 1) ++ S.map Prod.snd ++ lines.drop j).getD (i + 1 + t) "" =
        (S.map Prod.snd).getD t "" := by
    intro t ht
    rw [List.getD_append _ _ _ _
      (by rw [List.length_append, hlenA, List.length_map]; omega)]
    rw [List.getD_append_right _ _ _ _ (by rw [hlenA]; omega)]
    rw [show i + 1 + t - (lines.take (i + 1)).length = t from by rw [hlenA]; omega]
  have hgetEnd :
      (lines.take (i + 1) ++ S.map Prod.snd ++ lines.drop j).getD (i + 1 + S.length) "" =
        lines.getD j "" := by
    rw [List.getD_append_right _ _ _ _
      (by rw [List.length_append, hlenA, List.length_map])]
    rw [show i + 1 + S.length - (lines.take (i + 1) ++ S.map Prod.snd).length = 0 from by
      rw [List.length_append, hlenA, List.length_map]; omega]
    rw [getD_drop, Nat.add_zero]
  have hOpen2 : firstIdxWith (fun l => hasSubstr l "<ul>")
      (lines.take (i + 1) ++ S.map Prod.snd ++ lines.drop j) = some i := by
    apply firstIdxWith_intro
    · rw [List.length_append, List.length_append, hlenA]
      omega
    · rw [hgetPre i (by omega)]
      exact hpi
    · intro m hm
      rw [hgetPre m (by omega)]
      exact hmini m hm
  have hClose2 : firstIdxWith (fun l => hasSubstr l "</ul>")
      (lines.take (i + 1) ++ S.map Prod.snd ++ lines.drop j) =
        some (i + 1 + S.length) := by
    apply firstIdxWith_intro
    · rw [List.length_append, List.length_append, hlenA, List.length_map,
        List.length_drop]
      omega
    · rw [hgetEnd]
      exact hpj
    · intro m hm
      by_cases hmle : m ≤ i
      · rw [hgetPre m hmle]
        exact hminj m (by omega)
      · have ht : m - (i + 1) < S.length := by omega
        rw [show m = i + 1 + (m - (i + 1)) from by omega, hgetB _ ht]
        exact hBnoClose _ (getD_mem (S.map Prod.snd) _ (by rw [List.length_map]; omega))
  have hslice : pySlice (lines.take (i + 1) ++ S.map Prod.snd ++ lines.drop j)
      (i + 1) (i + 1 + S.length) = S.map Prod.snd := by
    show ((lines.take (i + 1) ++ S.map Prod.snd ++ lines.drop j).drop (i + 1)).take
      (i + 1 + S.length - (i + 1)) = _
    rw [show i + 1 + S.length - (i + 1) = S.length from by omega]
    rw [List.append_assoc, List.drop_left' hlenA]
    exact List.take_left' (List.length_map ..)
  have hcollect : collectEntries (S.map Prod.snd) [] = S := by
    have h2 := collect_of_keyed S [] hSvals (by simpa using hSnodup)
    simpa using h2
  have hcS : containsKey code S = true := (containsKey_iff code S).2 hcodeS
  have hsort : List.insertionSort keyGe S = S := hSsorted.insertionSort_eq
  have htake : (lines.take (i + 1) ++ S.map Prod.snd ++ lines.drop j).take (i + 1) =
      lines.take (i + 1) := by
    rw [List.append_assoc]
    exact List.take_left' hlenA
  have hdrop2 : (lines.take (i + 1) ++ S.map Prod.snd ++ lines.drop j).drop
      (i + 1 + S.length) = lines.drop j :=
    List.drop_left' (by rw [List.length_append, hlenA, List.length_map])
  simp only [addEntryCore, hOpen2, hClose2, hslice, hcollect, hcS, if_true,
    Bool.not_true, hsort, htake, hdrop2]

/-- Idempotence core: on a well-formed document (first `<ul>` line strictly
before the first `</ul>` line) with `code` absent from the block, the rewrite
inserts the entry and reports a change, and rewriting the result again yields
the identical line list and reports no change. -/
theorem addEntryCore_idem (lines : List String) (code dd : String) (i j : Nat)
    (hlen : code.toList.length = 8) (hdig : code.toList.all Char.isDigit = true)
    (hdd : ∀ c ∈ dd.toList, c ≠ '<')
    (hOpen : firstIdxWith (fun l => hasSubstr l "<ul>") lines = some i)
    (hClose : firstIdxWith (fun l => hasSubstr l "</ul>") lines = some j)
    (hord : i < j)
    (habs : code ∉ (pySlice lines (i + 1) j).filterMap parseLiLine) :
    ∃ out, addEntryCore lines code dd = some (true, out) ∧
      addEntryCore out code dd = some (false, out) := by
  obtain ⟨hilen, hpi, hmini⟩ := firstIdxWith_spec _ lines i hOpen
  obtain ⟨hjlen, hpj, hminj⟩ := firstIdxWith_spec _ lines j hClose
  have hcE : containsKey code (collectEntries (pySlice lines (i + 1) j) []) = false := by
    cases hc : containsKey code (collectEntries (pySlice lines (i + 1) j) []) with
    | false => rfl
    | true =>
      exfalso
      have h2 := (containsKey_iff code _).1 hc
      have h3 := (collect_keys (pySlice lines (i + 1) j) [] code).1 h2
      simp only [List.map_nil, List.not_mem_nil, false_or] at h3
      exact habs h3
  have hEvals : ∀ p ∈ collectEntries (pySlice lines (i + 1) j) [],
      p.2 ∈ pySlice lines (i + 1) j ∧ parseLiLine p.2 = some p.1 := by
    intro p hp
    rcases collect_mem _ [] p hp with h | h
    · simp at h
    · exact h
  have hEnodup : ((collectEntries (pySlice lines (i + 1) j) []).map Prod.fst).Nodup :=
    collect_keys_nodup (pySlice lines (i + 1) j) [] (by simp)
  have hfresh : parseLiLine (renderLiLine code dd) = some code :=
    parse_renderLiLine code dd hlen hdig
  have hcodeNotE : code ∉ (collectEntries (pySlice lines (i + 1) j) []).map Prod.fst := by
    intro hmem
    rw [← containsKey_iff] at hmem
    rw [hmem] at hcE
    cases hcE
  have hE2vals : ∀ p ∈ collectEntries (pySlice lines (i + 1) j) [] ++
      [(code, renderLiLine code dd)], parseLiLine p.2 = some p.1 := by
    intro p hp
    rcases List.mem_append.1 hp with h | h
    · exact (hEvals p h).2
    · simp only [List.mem_singleton] at h
      subst h
      exact hfresh
  have hE2nodup : ((collectEntries (pySlice lines (i + 1) j) [] ++
      [(code, renderLiLine code dd)]).map Prod.fst).Nodup := by
    simp [List.nodup_append, hEnodup, hcodeNotE]
  have hperm : (List.insertionSort keyGe (collectEntries (pySlice lines (i + 1) j) [] ++
      [(code, renderLiLine code dd)])).Perm
      (collectEntries (pySlice lines (i + 1) j) [] ++ [(code, renderLiLine code dd)]) :=
    List.perm_insertionSort ..
  have hSvals : ∀ p ∈ List.insertionSort keyGe
      (collectEntries (pySlice lines (i + 1) j) [] ++ [(code, renderLiLine code dd)]),
      parseLiLine p.2 = some p.1 := fun p hp => hE2vals p (hperm.subset hp)
  have hSnodup : ((List.insertionSort keyGe
      (collectEntries (pySlice lines (i + 1) j) [] ++
        [(code, renderLiLine code dd)])).map Prod.fst).Nodup :=
    (hperm.map Prod.fst).nodup_iff.2 hE2nodup
  have hSsorted : (List.insertionSort keyGe
      (collectEntries (pySlice lines (i + 1) j) [] ++
        [(code, renderLiLine code dd)])).Sorted keyGe :=
    List.sorted_insertionSort ..
  have hBnoClose : ∀ l ∈ (List.insertionSort keyGe
      (collectEntries (pySlice lines (i + 1) j) [] ++
        [(code, renderLiLine code dd)])).map Prod.snd,
      hasSubstr l "</ul>" = false := by
    intro l hl
    obtain ⟨p, hp, rfl⟩ := List.mem_map.1 hl
    have hp2 := hperm.subset hp
    rcases List.mem_append.1 hp2 with h | h
    · obtain ⟨hmem, -⟩ := hEvals p h
      obtain ⟨m, hm1, hm2, hm3, hm4⟩ := mem_slice_getD lines (i + 1) (j - (i + 1)) p.2 hmem
      rw [← hm4]
      exact hminj m (by omega)
    · simp only [List.mem_singleton] at h
      subst h
      exact renderLiLine_no_close_ul code dd hdig hdd
  have hcodeS : code ∈ (List.insertionSort keyGe
      (collectEntries (pySlice lines (i + 1) j) [] ++
        [(code, renderLiLine code dd)])).map Prod.fst := by
    rw [(hperm.map Prod.fst).mem_iff]
    rw [List.map_append]
    exact List.mem_append_right _ (by simp)
  refine ⟨lines.take (i + 1) ++ (List.insertionSort keyGe
      (collectEntries (pySlice lines (i + 1) j) [] ++
        [(code, renderLiLine code dd)])).map Prod.snd ++ lines.drop j, ?_, ?_⟩
  · simp only [addEntryCore, hOpen, hClose, hcE, Bool.false_eq_true, if_false,
      Bool.not_false]
  · exact addEntryCore_on_sorted lines code dd i j _ hilen hpi hmini hjlen hpj hminj
      hord hSvals hSnodup hSsorted hBnoClose hcodeS

/-- C2: `merge_entry` is idempotent. On a well-formed index document (the
first list-open marker line precedes the first list-close marker line) and a
parseable DateCode absent from the block, the first call inserts the entry
and reports a change, and a second call with the same code leaves the stored
file content byte-for-byte identical (the very same line list, and the very
same filesystem) and reports `changed = false`. -/
theorem c2_merge_idempotent (fs : FS) (folder code dd : String)
    (lines : List String) (i j : Nat)
    (hfile : fs (folder ++ "/index.html") = some lines)
    (hfmt : formatTurkishDate code = some dd)
    (hOpen : firstIdxWith (fun l => hasSubstr l "<ul>") lines = some i)
    (hClose : firstIdxWith (fun l => hasSubstr l "</ul>") lines = some j)
    (hord : i < j)
    (habs : code ∉ (pySlice lines (i + 1) j).filterMap parseLiLine) :
    ∃ fs1, addEntryToIndex fs folder code = .ok (true, fs1) ∧
      addEntryToIndex fs1 folder code = .ok (false, fs1) := by
  have hsome : (formatTurkishDate code).isSome = true := by rw [hfmt]; rfl
  have hlen := formatTurkishDate_len8 hsome
  have hdig := formatTurkishDate_digits hsome
  have hdd := formatTurkishDate_no_lt hfmt
  obtain ⟨out, h1, h2⟩ :=
    addEntryCore_idem lines code dd i j hlen hdig hdd hOpen hClose hord habs
  refine ⟨fsSet fs (folder ++ "/index.html") out, ?_, ?_⟩
  · simp only [addEntryToIndex, hfile, hfmt, h1]
  · have hfile2 : fsSet fs (folder ++ "/index.html") out (folder ++ "/index.html") =
        some out := by
      unfold fsSet
      rw [if_pos rfl]
    simp only [addEntryToIndex, hfile2, hfmt, h2]
    rw [fsSet_idem]

/-- C2 (witness): instantiation at a concrete zip index document. -/
theorem c2_witness :
    ((fun q => if q = "zip/index.html" then
        some ["<ul>\n",
              "    <li><a href=\"20250901.html\">September 1, 2025</a></li>\n",
              "</ul>\n"] else none : FS) ("zip" ++ "/index.html") =
      some ["<ul>\n",
            "    <li><a href=\"20250901.html\">September 1, 2025</a></li>\n",
            "</ul>\n"]) ∧
    formatTurkishDate "20250910" = some "September 10, 2025" ∧
    (0 : Nat) < 2 ∧
    ("20250910" ∉ (pySlice
      ["<ul>\n",
       "    <li><a href=\"20250901.html\">September 1, 2025</a></li>\n",
       "</ul>\n"] (0 + 1) 2).filterMap parseLiLine) ∧
    (∃ fs1, addEntryToIndex
        (fun q => if q = "zip/index.html" then
          some ["<ul>\n",
                "    <li><a href=\"20250901.html\">September 1, 2025</a></li>\n",
                "</ul>\n"] else none) "zip" "20250910" = .ok (true, fs1) ∧
      addEntryToIndex fs1 "zip" "20250910" = .ok (false, fs1)) :=
  ⟨rfl, rfl, by decide, by decide,
   c2_merge_idempotent
     (fun q => if q = "zip/index.html" then
       some ["<ul>\n",
             "    <li><a href=\"20250901.html\">September 1, 2025</a></li>\n",
             "</ul>\n"] else none)
     "zip" "20250910" "September 10, 2025"
     ["<ul>\n",
      "    <li><a href=\"20250901.html\">September 1, 2025</a></li>\n",
      "</ul>\n"] 0 2 rfl rfl rfl rfl (by decide) (by decide)⟩
